import Mathlib

/-!
Verification of the thirdroom cross-thread resource synchronization engine.

The definitions below are a shallow embedding of the TypeScript source:
`src/engine/resource/resource.common.ts` and
`src/engine/resource/ScriptResourceManager.ts` (which also contains the
`GameResourceManager` class).  JS `Map`s become association lists, typed
arrays become `List Nat` of 32-bit words (the WASM heap is modelled at
word granularity; a `ptr` is a word offset), and functions from
`resource.game.ts`, `Deferred.ts` and `TripleBuffer.ts` — whose sources
are not part of the reviewed tree — are modelled from the specification
and are marked as such in their doc comments.
-/

namespace ThirdRoom

/-! ### Association-list utilities (standing for JS `Map`) -/

def lookupA {α : Type} : List (Nat × α) → Nat → Option α
  | [], _ => none
  | (k, v) :: rest, key => if k = key then some v else lookupA rest key

def eraseA {α : Type} : List (Nat × α) → Nat → List (Nat × α)
  | [], _ => []
  | (k, v) :: rest, key => if k = key then eraseA rest key else (k, v) :: eraseA rest key

def insertA {α : Type} (m : List (Nat × α)) (key : Nat) (v : α) : List (Nat × α) :=
  (key, v) :: eraseA m key

def lookupS {α : Type} : List (String × α) → String → Option α
  | [], _ => none
  | (k, v) :: rest, key => if k = key then some v else lookupS rest key

/-- A JS `array[i] = v` on a possibly shorter array: pad with the default,
then set. -/
def setPadN (l : List Nat) (i : Nat) (v : Nat) : List Nat :=
  (l ++ List.replicate (i + 1 - l.length) 0).set i v

/-- A JS `array[j] = v` where unassigned slots read as `undefined`
(modelled as `none`). -/
def setPadO (l : List (Option Nat)) (i : Nat) (v : Nat) : List (Option Nat) :=
  (l ++ List.replicate (i + 1 - l.length) none).set i (some v)

/-- Write a run of words into the heap starting at `ptr`. -/
def writeWords : List Nat → Nat → List Nat → List Nat
  | heap, _, [] => heap
  | heap, ptr, w :: rest => writeWords (setPadN heap ptr w) (ptr + 1) rest

/-- Read `len` words of the heap starting at `ptr` (out-of-range reads
give 0, matching a typed-array view over a zero-initialized region). -/
def heapSlice (heap : List Nat) (ptr len : Nat) : List Nat :=
  (List.range len).map (fun k => heap.getD (ptr + k) 0)

/-! ### Reference counts (modelled from the spec)

`addResourceRef` / `removeResourceRef` and the game-side
`disposeResource(ctx, id)` live in `resource.game.ts`, which is not part
of the reviewed tree. -/

def getCount (rc : List (Nat × Int)) (id : Nat) : Int :=
  (lookupA rc id).getD 0

/-- Modelled from the spec: `addResourceRef` (resource.game.ts, not in the
reviewed tree) increments the reference count of the id — the count is
"incremented whenever a schema field ... is set to point at a resource". -/
def addResourceRef (rc : List (Nat × Int)) (id : Nat) : List (Nat × Int) :=
  insertA rc id (getCount rc id + 1)

/-- Modelled from the spec: `removeResourceRef` (resource.game.ts, not in
the reviewed tree) decrements the reference count of the id — the count is
"decremented when cleared or when the owning resource is disposed". -/
def removeResourceRef (rc : List (Nat × Int)) (id : Nat) : List (Nat × Int) :=
  insertA rc id (getCount rc id - 1)

/-! ### Shared data shapes -/

/-- A triple buffer: three equally sized snapshot slots.  The atomic flag
word selecting the read/write slot is supplied externally (the managers
share one flag word, `ctx.gameToRenderTripleBufferFlags`). -/
structure TB where
  s0 : List Nat
  s1 : List Nat
  s2 : List Nat
  deriving DecidableEq

def TB.slot (tb : TB) : Fin 3 → List Nat
  | ⟨0, _⟩ => tb.s0
  | ⟨1, _⟩ => tb.s1
  | ⟨2, _⟩ => tb.s2

def TB.setSlot (tb : TB) : Fin 3 → List Nat → TB
  | ⟨0, _⟩, v => { tb with s0 := v }
  | ⟨1, _⟩, v => { tb with s1 := v }
  | ⟨2, _⟩, v => { tb with s2 := v }

/-- Modelled from the spec: `copyToWriteBuffer` (TripleBuffer.ts, not in
the reviewed tree) copies the view into the slot currently designated for
writing by the shared flag word. -/
def copyToWriteBuffer (writeIdx : Fin 3) (tb : TB) (view : List Nat) : TB :=
  tb.setSlot writeIdx view

/-- One entry of `resourceModule.resourceTransformData` (its per-type
byte-layout part): dependency/ref byte offsets, which of them belong to
string fields, and the byte length of the schema in words.  The scratch
`writeView`/`refView` pair it also carries is reconstructed per commit
below (the scratch is fully overwritten before use). -/
structure Transform where
  refOffsets : List Nat
  refIsString : List Bool
  byteLenW : Nat
  deriving DecidableEq

/-- A script-side `RemoteResource`: its process-wide id, type name,
pointer into the WASM heap (a word offset here), triple buffer and
initialization flag.  Its `byteView` is the heap region at `ptr`. -/
structure RemoteRes where
  resourceId : Nat
  resourceType : String
  ptr : Nat
  tb : TB
  initialized : Bool
  deriving DecidableEq

/-- Per-resource store of the script manager (`ScriptResourceStore`):
`prevRefs` as a JS sparse array; `refView` is derived from the owning
resource pointer. -/
structure ScriptStore where
  prevRefs : List (Option Nat)
  deriving DecidableEq

/-- State of a `ScriptResourceManager` together with the parts of the
game context it touches (reference counts, remote string/buffer tables
and the id source are modelled from the spec, as `resource.game.ts` is
not in the reviewed tree).  `freeList` is a ghost log of `deallocate`
calls and `allocPtr` a bump-pointer model of `websg_allocate` (the WASM
instance is assumed to be set). -/
structure SM where
  heap : List Nat
  resources : List RemoteRes
  ptrToResourceId : List (Nat × Nat)
  storage : List (Nat × ScriptStore)
  transforms : List (String × Transform)
  refCounts : List (Nat × Int)
  remoteStrings : List (Nat × String)
  remoteBuffers : List (Nat × Nat)
  nextId : Nat
  freeList : List Nat
  allocPtr : Nat
  deriving DecidableEq

/-- Modelled from the spec: `createStringResource` (resource.game.ts, not
in the reviewed tree) registers a new string resource under a fresh
monotonic process-wide id and returns that id. -/
def createStringResourceScript (sm : SM) (value : String) : Nat × SM :=
  (sm.nextId,
    { sm with
      remoteStrings := insertA sm.remoteStrings sm.nextId value
      nextId := sm.nextId + 1 })

/-- Modelled from the spec: `createArrayBufferResource` (resource.game.ts,
not in the reviewed tree) registers a new byte-blob resource under a
fresh monotonic process-wide id and returns that id. -/
def createArrayBufferResourceScript (sm : SM) (byteLength : Nat) : Nat × SM :=
  (sm.nextId,
    { sm with
      remoteBuffers := insertA sm.remoteBuffers sm.nextId byteLength
      nextId := sm.nextId + 1 })

/-! ### ScriptResourceManager operations -/

/-- The argument of `setRef`/`setRefArrayItem`: what those methods read
from a `RemoteResource` value. -/
structure ScriptRemoteRef where
  resourceId : Nat
  ptr : Nat
  deriving DecidableEq

/-- `ScriptResourceManager.setRef` (ScriptResourceManager.ts lines
193–208).  `store` is the `Uint32Array` field store; the method returns
the updated reference counts and store.  Note the source compares
`value?.resourceId` against `store[0]`, which holds the previous value
pointer. -/
def scriptSetRef (value : Option ScriptRemoteRef) (store : List Nat)
    (bRef : Bool) (rc : List (Nat × Int)) : List (Nat × Int) × List Nat :=
  let curResourceId := store.getD 0 0
  let nextResourceId := match value with
    | some v => v.resourceId
    | none => 0
  let rc1 := if bRef = false ∧ nextResourceId ≠ 0 ∧ nextResourceId ≠ curResourceId then
      addResourceRef rc nextResourceId
    else rc
  let rc2 := if bRef = false ∧ curResourceId ≠ 0 ∧ nextResourceId ≠ curResourceId then
      removeResourceRef rc1 curResourceId
    else rc1
  (rc2, store.set 0 (match value with | some v => v.ptr | none => 0))

/-- `ScriptResourceManager.setRefArrayItem` (lines 210–227). -/
def scriptSetRefArrayItem (index : Nat) (value : Option ScriptRemoteRef)
    (store : List Nat) (rc : List (Nat × Int)) : List (Nat × Int) × List Nat :=
  let curResourceId := store.getD index 0
  let nextResourceId := match value with
    | some v => v.resourceId
    | none => 0
  let rc1 := if nextResourceId ≠ 0 ∧ nextResourceId ≠ curResourceId then
      addResourceRef rc nextResourceId
    else rc
  let rc2 := if curResourceId ≠ 0 ∧ nextResourceId ≠ curResourceId then
      removeResourceRef rc1 curResourceId
    else rc1
  (rc2, store.set index (match value with | some v => v.ptr | none => 0))

/-- The current string value a script-side string store refers to
(`getString`, lines 131–134): `ptrToResourceId.get(store[0])` followed by
a remote lookup, defaulting to the empty string. -/
def scriptCurStringValue (sm : SM) (store : List Nat) : String :=
  match lookupA sm.ptrToResourceId (store.getD 0 0) with
  | some rid => (lookupA sm.remoteStrings rid).getD ""
  | none => ""

/-- The encoded null-terminated string payload, one encoded byte per heap
cell (granularity choice of this embedding). -/
def encodeStringWords (s : String) : List Nat :=
  (s.toUTF8.toList.map (fun b => b.toNat)) ++ [0]

/-- `ScriptResourceManager.setString` (lines 136–159).  When the decoded
current value differs from `value`, the old pointer word is released
(note the source passes the raw `store[0]` pointer to `removeRef`), a new
null-terminated payload is allocated on the heap, a string resource is
created, referenced, and registered in the pointer table. -/
def scriptSetString (value : String) (store : List Nat) (sm : SM) :
    SM × List Nat :=
  if scriptCurStringValue sm store = value then (sm, store)
  else
    let sm1 := if store.getD 0 0 ≠ 0 then
        { sm with refCounts := removeResourceRef sm.refCounts (store.getD 0 0) }
      else sm
    if value = "" then (sm1, store)
    else
      let payload := encodeStringWords value
      let ptr := sm1.allocPtr
      let sm2 := { sm1 with
        allocPtr := sm1.allocPtr + payload.length
        heap := writeWords sm1.heap ptr payload }
      let store1 := store.set 0 ptr
      let (rid, sm3) := createStringResourceScript sm2 value
      let sm4 := { sm3 with
        refCounts := addResourceRef sm3.refCounts rid
        ptrToResourceId := insertA sm3.ptrToResourceId ptr rid }
      (sm4, store1)

/-- `ScriptResourceManager.setArrayBuffer` (lines 170–186).  Returns the
thrown error message (if any) together with the state and store after the
call: a JS `throw` leaves all mutations made before it in place. -/
def scriptSetArrayBuffer (valueBytes : List Nat) (store : List Nat) (sm : SM) :
    Option String × SM × List Nat :=
  if store.getD 1 0 ≠ 0 then
    (some "You cannot mutate an existing arrayBuffer field.", sm, store)
  else
    let store1 := store.set 0 valueBytes.length
    let ptr := sm.allocPtr
    let sm1 := { sm with
      allocPtr := sm.allocPtr + valueBytes.length
      heap := writeWords sm.heap ptr valueBytes }
    let store2 := store1.set 1 ptr
    let (rid, sm2) := createArrayBufferResourceScript sm1 valueBytes.length
    let sm3 := { sm2 with
      refCounts := addResourceRef sm2.refCounts rid
      ptrToResourceId := insertA sm2.ptrToResourceId ptr rid }
    (none, sm3, store2)

/-- `findIndex((resource) => resource.resourceId === resourceId)`. -/
def findIdxRes : List RemoteRes → Nat → Option Nat
  | [], _ => none
  | r :: rest, id => if r.resourceId = id then some 0 else (findIdxRes rest id).map (· + 1)

/-- The ref-release loop of `ScriptResourceManager.disposeResource`
(lines 109–120).  The source indexes `resourceStore.refView` — a
`Uint32Array` based at the resource pointer — directly with the byte
offset `refOffsets[i]` (without dividing by 4); the embedding keeps that
quirk: it reads the word at `ptr + refOffset`. -/
def disposeRefLoop (heap : List Nat) (table : List (Nat × Nat)) (ptrW : Nat) :
    List Nat → List (Nat × Int) → List (Nat × Int)
  | [], rc => rc
  | refOffset :: rest, rc =>
    let refPtr := heap.getD (ptrW + refOffset) 0
    let rc1 := if refPtr ≠ 0 then
        match lookupA table refPtr with
        | some rid => if rid ≠ 0 then removeResourceRef rc rid else rc
        | none => rc
      else rc
    disposeRefLoop heap table ptrW rest rc1

/-- `ScriptResourceManager.disposeResource` (lines 89–129): find the
resource by id (returning `false` untouched when absent), release each
referenced id read through the store view, deallocate the WASM region,
and drop the resource from every index of the manager. -/
def scriptDisposeResource (sm : SM) (resourceId : Nat) :
    Except String (Bool × SM) :=
  match findIdxRes sm.resources resourceId with
  | none => .ok (false, sm)
  | some index =>
    match sm.resources.get? index with
    | none => .error "resource index out of range"
    | some resource =>
      match lookupS sm.transforms resource.resourceType with
      | none => .error ("Resource type " ++ resource.resourceType ++ " not registered.")
      | some transform =>
        if transform.refOffsets.length ≠ 0 ∧ lookupA sm.storage resource.resourceId = none then
          .error "resource store missing"
        else
          .ok (true,
            { sm with
              refCounts := disposeRefLoop sm.heap sm.ptrToResourceId resource.ptr
                transform.refOffsets sm.refCounts
              freeList := resource.ptr :: sm.freeList
              ptrToResourceId := eraseA sm.ptrToResourceId resource.ptr
              resources := sm.resources.eraseIdx index
              storage := eraseA sm.storage resourceId })

/-! ### GameResourceManager operations -/

/-- One schema property as read by the registry and the game-side
disposer: its kind tag, back-reference flag, element count, byte offset
and element byte width (`arrayType.BYTES_PER_ELEMENT`). -/
structure SchemaProp where
  propType : String
  backRef : Bool
  size : Nat
  byteOffset : Nat
  elemBytes : Nat
  deriving DecidableEq

/-- A game-side `RemoteResource`: id, schema of its type, the per-field
`__props` arrays of stored words, raw bytes and triple buffer. -/
structure GameRes where
  resourceId : Nat
  schema : List (String × SchemaProp)
  props : List (String × List Nat)
  byteView : List Nat
  tb : TB
  initialized : Bool
  deriving DecidableEq

/-- The parts of the game context the manager mutates.  The remote
resource table (`getRemoteResource`/`setRemoteResource`), string/buffer
tables, reference counts and the id source live in `resource.game.ts`,
which is not in the reviewed tree, and are modelled from the spec. -/
structure GameCtx where
  remote : List (Nat × GameRes)
  remoteStrings : List (Nat × String)
  remoteBuffers : List (Nat × Nat)
  refCounts : List (Nat × Int)
  nextId : Nat
  deriving DecidableEq

structure GM where
  resources : List GameRes
  ctx : GameCtx
  deriving DecidableEq

/-- Modelled from the spec: `disposeResource(ctx, id)` of resource.game.ts
(not in the reviewed tree), used by the game-side manager as `removeRef`
and when clearing string/ref fields, releases one reference to the id:
the count is decremented (cascading teardown on reaching zero is outside
the claims below). -/
def releaseGameRef (ctx : GameCtx) (id : Nat) : GameCtx :=
  { ctx with refCounts := removeResourceRef ctx.refCounts id }

def addGameRef (ctx : GameCtx) (id : Nat) : GameCtx :=
  { ctx with refCounts := addResourceRef ctx.refCounts id }

/-- Modelled from the spec: game-side `createStringResource`
(resource.game.ts, not in the reviewed tree) registers a string resource
under a fresh monotonic id. -/
def createStringResourceGame (ctx : GameCtx) (value : String) : Nat × GameCtx :=
  (ctx.nextId,
    { ctx with
      remoteStrings := insertA ctx.remoteStrings ctx.nextId value
      nextId := ctx.nextId + 1 })

/-- Modelled from the spec: game-side `createArrayBufferResource`
(resource.game.ts, not in the reviewed tree) registers a byte-blob
resource under a fresh monotonic id. -/
def createArrayBufferResourceGame (ctx : GameCtx) (byteLength : Nat) : Nat × GameCtx :=
  (ctx.nextId,
    { ctx with
      remoteBuffers := insertA ctx.remoteBuffers ctx.nextId byteLength
      nextId := ctx.nextId + 1 })

/-- `GameResourceManager.setRef` (lines 549–560): release the previous
stored id, then store and reference the new one. -/
def gameSetRef (value : Option GameRes) (store : List Nat) (gm : GM) :
    GM × List Nat :=
  let gm1 := if store.getD 0 0 ≠ 0 then
      { gm with ctx := releaseGameRef gm.ctx (store.getD 0 0) }
    else gm
  match value with
  | some v =>
    let store1 := store.set 0 v.resourceId
    ({ gm1 with ctx := addGameRef gm1.ctx (store1.getD 0 0) }, store1)
  | none => (gm1, store.set 0 0)

/-- `GameResourceManager.setRefArrayItem` (lines 562–569): reference the
new value unconditionally and store its id. -/
def gameSetRefArrayItem (index : Nat) (value : Option GameRes)
    (store : List Nat) (gm : GM) : GM × List Nat :=
  match value with
  | some v => ({ gm with ctx := addGameRef gm.ctx v.resourceId }, store.set index v.resourceId)
  | none => (gm, store.set index 0)

/-- `GameResourceManager.setString` (lines 516–524): release the previous
stored id, create a fresh string resource, reference it and store it. -/
def gameSetString (value : String) (store : List Nat) (gm : GM) :
    GM × List Nat :=
  let gm1 := if store.getD 0 0 ≠ 0 then
      { gm with ctx := releaseGameRef gm.ctx (store.getD 0 0) }
    else gm
  let p := createStringResourceGame gm1.ctx value
  ({ gm1 with ctx := addGameRef p.2 p.1 }, store.set 0 p.1)

/-- `GameResourceManager.setArrayBuffer` (lines 534–543), with the thrown
error message (if any) in the first component. -/
def gameSetArrayBuffer (valueByteLength : Nat) (store : List Nat) (gm : GM) :
    Option String × GM × List Nat :=
  if store.getD 1 0 ≠ 0 then
    (some "You cannot mutate an existing arrayBuffer field.", gm, store)
  else
    let p := createArrayBufferResourceGame gm.ctx valueByteLength
    let gm1 := { gm with ctx := addGameRef p.2 p.1 }
    (none, gm1, (store.set 0 valueByteLength).set 1 p.1)

/-- Release every non-zero id of a `__props` array. -/
def releaseList (ctx : GameCtx) : List Nat → GameCtx
  | [] => ctx
  | rid :: rest => releaseList (if rid ≠ 0 then releaseGameRef ctx rid else ctx) rest

/-- The per-field loop of `GameResourceManager.disposeResource`
(lines 487–509): string/ref/refArray/refMap fields release each stored
non-zero id; an arrayBuffer field releases the id in its second word. -/
def gameSchemaRelease (ctx : GameCtx) (props : List (String × List Nat)) :
    List (String × SchemaProp) → GameCtx
  | [] => ctx
  | (propName, prop) :: rest =>
    let ctx1 :=
      if prop.propType = "ref" ∨ prop.propType = "string"
          ∨ prop.propType = "refArray" ∨ prop.propType = "refMap" then
        releaseList ctx ((lookupS props propName).getD [])
      else if prop.propType = "arrayBuffer" then
        let rid := ((lookupS props propName).getD []).getD 1 0
        if rid ≠ 0 then releaseGameRef ctx rid else ctx
      else ctx
    gameSchemaRelease ctx1 props rest

def findIdxGameRes : List GameRes → Nat → Option Nat
  | [], _ => none
  | r :: rest, id => if r.resourceId = id then some 0 else (findIdxGameRes rest id).map (· + 1)

/-- `GameResourceManager.disposeResource` (lines 474–510): a `void`
method.  It returns early when the id has no remote-table entry; it does
not remove that entry itself. -/
def gameDisposeResource (gm : GM) (resourceId : Nat) : GM :=
  match lookupA gm.ctx.remote resourceId with
  | none => gm
  | some resource =>
    let resources1 := match findIdxGameRes gm.resources resourceId with
      | some index => gm.resources.eraseIdx index
      | none => gm.resources
    { gm with
      resources := resources1
      ctx := gameSchemaRelease gm.ctx resource.props resource.schema }

/-! ### Registry: dependency byte offsets (`registerResource`,
resource.common.ts lines 215–231) -/

def isRefKind (t : String) : Bool :=
  t == "string" || t == "ref" || t == "refArray" || t == "refMap"

/-- The `dependencyByteOffsets` computed once per schema by
`registerResource`: back-reference fields are skipped; string/ref/
refArray/refMap fields contribute one offset per element; arrayBuffer
fields contribute the offset of their second word. -/
def dependencyByteOffsets : List (String × SchemaProp) → List Nat
  | [] => []
  | (_, prop) :: rest =>
    if prop.backRef then dependencyByteOffsets rest
    else if isRefKind prop.propType then
      ((List.range prop.size).map (fun i => prop.byteOffset + i * prop.elemBytes))
        ++ dependencyByteOffsets rest
    else if prop.propType = "arrayBuffer" then
      (prop.byteOffset + 4) :: dependencyByteOffsets rest
    else dependencyByteOffsets rest

/-! ### commitResources -/

/-- Decode the null-terminated payload at `ptr`: a model of `decodeString`
(strings.ts, not in the reviewed tree), at the one-encoded-byte-per-cell
granularity of this embedding.  Only its use as the payload of a freshly
created string resource matters to the claims. -/
def decodeWords (heap : List Nat) : Nat → Nat → List Nat
  | _, 0 => []
  | ptr, fuel + 1 =>
    let w := heap.getD ptr 0
    if w = 0 then [] else w :: decodeWords heap (ptr + 1) fuel

def decodeString (ptr : Nat) (heap : List Nat) : String :=
  String.intercalate "," ((decodeWords heap ptr (heap.length + 1 - ptr)).map (fun w => toString w))

/-- The accumulator of the per-ref translate loop of
`ScriptResourceManager.commitResources` (lines 261–283): the parts of the
manager and game context the loop mutates, the per-resource `prevRefs`
array, and the scratch write view being filled. -/
structure CommitAcc where
  refCounts : List (Nat × Int)
  remoteStrings : List (Nat × String)
  nextId : Nat
  prevRefs : List (Option Nat)
  scratch : List Nat
  deriving DecidableEq

/-- The previous-id release of a changed string ref (lines 268–273):
`ptrToResourceId.get(prevRefPtr)` and, when truthy, `removeResourceRef`. -/
def commitPrevRelease (table : List (Nat × Nat)) (acc : CommitAcc)
    (prevRefPtr : Option Nat) : CommitAcc :=
  match prevRefPtr with
  | some p =>
    match lookupA table p with
    | some prevRid =>
      if prevRid ≠ 0 then
        { acc with refCounts := removeResourceRef acc.refCounts prevRid }
      else acc
    | none => acc
  | none => acc

/-- Release the previous id and record `prevRefs[j] = nextRefPtr`
(line 275). -/
def commitMarkPrev (table : List (Nat × Nat)) (acc : CommitAcc)
    (j nextRefPtr : Nat) : CommitAcc :=
  { commitPrevRelease table acc (acc.prevRefs.getD j none) with
    prevRefs := setPadO (commitPrevRelease table acc (acc.prevRefs.getD j none)).prevRefs
      j nextRefPtr }

/-- The side effects and published id of iteration `j` of the translate
loop (lines 261–283), before the final scratch write: read the stored
pointer word `nextRefPtr = refView[refOffset]`, look it up in the ptr→id
table; for a changed string ref additionally release the previous id,
remember the new pointer and — when the table yields no (non-zero) id
for it — mint a fresh string resource whose id becomes the published
value. -/
def commitRefValue (table : List (Nat × Nat)) (heap : List Nat) (ptrW : Nat)
    (t : Transform) (acc : CommitAcc) (j : Nat) (refOffsetB : Nat) : CommitAcc × Nat :=
  if acc.prevRefs.getD j none ≠ some (heap.getD (ptrW + refOffsetB / 4) 0)
      ∧ t.refIsString.getD j false then
    if (lookupA table (heap.getD (ptrW + refOffsetB / 4) 0)).getD 0 = 0 then
      ({ commitMarkPrev table acc j (heap.getD (ptrW + refOffsetB / 4) 0) with
          remoteStrings := insertA
            (commitMarkPrev table acc j (heap.getD (ptrW + refOffsetB / 4) 0)).remoteStrings
            (commitMarkPrev table acc j (heap.getD (ptrW + refOffsetB / 4) 0)).nextId
            (decodeString (heap.getD (ptrW + refOffsetB / 4) 0) heap)
          nextId := (commitMarkPrev table acc j (heap.getD (ptrW + refOffsetB / 4) 0)).nextId + 1 },
        (commitMarkPrev table acc j (heap.getD (ptrW + refOffsetB / 4) 0)).nextId)
    else
      (commitMarkPrev table acc j (heap.getD (ptrW + refOffsetB / 4) 0),
        (lookupA table (heap.getD (ptrW + refOffsetB / 4) 0)).getD 0)
  else (acc, (lookupA table (heap.getD (ptrW + refOffsetB / 4) 0)).getD 0)

/-- One iteration `j` of the translate loop: compute the published id and
write it (`nextResourceId || 0`) into the scratch view at the word
offset `refOffsets[j] / 4`. -/
def commitRefStep (table : List (Nat × Nat)) (heap : List Nat) (ptrW : Nat)
    (t : Transform) (acc : CommitAcc) (j : Nat) : CommitAcc :=
  match t.refOffsets.get? j with
  | none => acc
  | some refOffsetB =>
    let p := commitRefValue table heap ptrW t acc j refOffsetB
    { p.1 with scratch := setPadN p.1.scratch (refOffsetB / 4) p.2 }

/-- The translate loop, running `fuel` iterations starting at index `j`. -/
def commitRefLoop (table : List (Nat × Nat)) (heap : List Nat) (ptrW : Nat)
    (t : Transform) : Nat → Nat → CommitAcc → CommitAcc
  | _, 0, acc => acc
  | j, fuel + 1, acc =>
    commitRefLoop table heap ptrW t (j + 1) fuel (commitRefStep table heap ptrW t acc j)

/-- The body of `ScriptResourceManager.commitResources` (lines 252–294)
for one resource: fill the scratch write view with the resource bytes,
translate every ref offset, write the per-resource store back, and
publish — a full three-slot initialization on first commit, a single
write-slot copy thereafter. -/
def scriptCommitResource (writeIdx : Fin 3) (sm : SM) (res : RemoteRes) :
    Except String (SM × RemoteRes) :=
  match lookupS sm.transforms res.resourceType with
  | none => .error ("transform data missing for " ++ res.resourceType)
  | some t =>
    if t.refOffsets.length ≠ 0 ∧ lookupA sm.storage res.resourceId = none then
      .error "resource store missing"
    else
      let prevRefs0 := match lookupA sm.storage res.resourceId with
        | some st => st.prevRefs
        | none => []
      let acc0 : CommitAcc :=
        ⟨sm.refCounts, sm.remoteStrings, sm.nextId, prevRefs0,
          heapSlice sm.heap res.ptr t.byteLenW⟩
      let acc := commitRefLoop sm.ptrToResourceId sm.heap res.ptr t 0
        t.refOffsets.length acc0
      let storage1 := match lookupA sm.storage res.resourceId with
        | some _ => insertA sm.storage res.resourceId ⟨acc.prevRefs⟩
        | none => sm.storage
      let sm1 := { sm with
        refCounts := acc.refCounts
        remoteStrings := acc.remoteStrings
        nextId := acc.nextId
        storage := storage1 }
      let res1 :=
        if res.initialized then
          { res with tb := copyToWriteBuffer writeIdx res.tb acc.scratch }
        else
          { res with tb := ⟨acc.scratch, acc.scratch, acc.scratch⟩, initialized := true }
      .ok (sm1, res1)

/-- The loop of `ScriptResourceManager.commitResources` over the live
resources, threading the manager state. -/
def scriptCommitLoop (writeIdx : Fin 3) :
    SM → List RemoteRes → Except String (SM × List RemoteRes)
  | sm, [] => .ok (sm, [])
  | sm, r :: rest =>
    match scriptCommitResource writeIdx sm r with
    | .error e => .error e
    | .ok (sm1, r1) =>
      match scriptCommitLoop writeIdx sm1 rest with
      | .error e => .error e
      | .ok (sm2, rest1) => .ok (sm2, r1 :: rest1)

def scriptCommitResources (writeIdx : Fin 3) (sm : SM) : Except String SM :=
  match scriptCommitLoop writeIdx sm sm.resources with
  | .error e => .error e
  | .ok (sm1, rs) => .ok { sm1 with resources := rs }

/-- `GameResourceManager.commitResources` (lines 579–596) for one
resource: publish the raw bytes — all three slots on first commit, the
write slot only thereafter. -/
def gameCommitResource (writeIdx : Fin 3) (r : GameRes) : GameRes :=
  if r.initialized then
    { r with tb := copyToWriteBuffer writeIdx r.tb r.byteView }
  else
    { r with tb := ⟨r.byteView, r.byteView, r.byteView⟩, initialized := true }

def gameCommitResources (writeIdx : Fin 3) (gm : GM) : GM :=
  { gm with resources := gm.resources.map (gameCommitResource writeIdx) }

/-! ### Basic lemmas about the map model -/

theorem lookupA_insertA_self {α : Type} (m : List (Nat × α)) (k : Nat) (v : α) :
    lookupA (insertA m k v) k = some v := by
  simp [insertA, lookupA]

theorem lookupA_eraseA_self {α : Type} (m : List (Nat × α)) (k : Nat) :
    lookupA (eraseA m k) k = none := by
  induction m with
  | nil => rfl
  | cons x rest ih =>
    cases x with
    | mk a v =>
      simp only [eraseA]
      by_cases ha : a = k
      · rw [if_pos ha]
        exact ih
      · rw [if_neg ha]
        simp only [lookupA]
        rw [if_neg ha]
        exact ih

theorem lookupA_eraseA_ne {α : Type} (m : List (Nat × α)) (k key : Nat)
    (h : key ≠ k) : lookupA (eraseA m k) key = lookupA m key := by
  induction m with
  | nil => rfl
  | cons x rest ih =>
    cases x with
    | mk a v =>
      simp only [eraseA]
      by_cases ha : a = k
      · rw [if_pos ha, ih]
        simp only [lookupA]
        rw [if_neg (fun e => h (by rw [← e]; exact ha))]
      · rw [if_neg ha]
        simp only [lookupA]
        by_cases hak : a = key
        · rw [if_pos hak, if_pos hak]
        · rw [if_neg hak, if_neg hak]
          exact ih

theorem lookupA_insertA_ne {α : Type} (m : List (Nat × α)) (k key : Nat) (v : α)
    (h : key ≠ k) : lookupA (insertA m k v) key = lookupA m key := by
  simp only [insertA, lookupA]
  rw [if_neg (fun e => h e.symm), lookupA_eraseA_ne m k key h]

theorem getCount_addResourceRef_self (rc : List (Nat × Int)) (id : Nat) :
    getCount (addResourceRef rc id) id = getCount rc id + 1 := by
  simp [addResourceRef, getCount, lookupA_insertA_self]

theorem getCount_insertA_ne (rc : List (Nat × Int)) (k key : Nat) (c : Int)
    (h : key ≠ k) : getCount (insertA rc k c) key = getCount rc key := by
  simp [getCount, lookupA_insertA_ne rc k key c h]

theorem getCount_addResourceRef_ne (rc : List (Nat × Int)) (id key : Nat)
    (h : key ≠ id) : getCount (addResourceRef rc id) key = getCount rc key :=
  getCount_insertA_ne rc id key _ h

theorem getCount_removeResourceRef_self (rc : List (Nat × Int)) (id : Nat) :
    getCount (removeResourceRef rc id) id = getCount rc id - 1 := by
  simp [removeResourceRef, getCount, lookupA_insertA_self]

theorem getCount_removeResourceRef_ne (rc : List (Nat × Int)) (id key : Nat)
    (h : key ≠ id) : getCount (removeResourceRef rc id) key = getCount rc key :=
  getCount_insertA_ne rc id key _ h

/-! ### Example states used by witnesses -/

def smEmpty : SM := ⟨[], [], [], [], [], [], [], [], 1, [], 64⟩

def gmEmpty : GM := ⟨[], ⟨[], [], [], [], 1⟩⟩

def gRes7 : GameRes := ⟨7, [], [], [], ⟨[], [], []⟩, true⟩

def gmC3 : GM := ⟨[], ⟨[], [], [], [(7, 1)], 10⟩⟩

def gRefProp : SchemaProp := ⟨"ref", false, 1, 0, 4⟩

def gRes1 : GameRes := ⟨1, [("material", gRefProp)], [("material", [7])], [], ⟨[], [], []⟩, true⟩

def gmC2 : GM := ⟨[gRes1], ⟨[(1, gRes1)], [], [], [(7, 2)], 10⟩⟩

/-! ### C10 -/

/-- C10: in both resource-manager variants, `setArrayBuffer` on a store
whose second word is already non-zero throws ("You cannot mutate an
existing arrayBuffer field.") and, since the check precedes every
mutation, leaves the store, the manager state and all reference counts
unchanged. -/
theorem setArrayBuffer_write_once (v : List Nat) (n : Nat)
    (sStore gStore : List Nat) (sm : SM) (gm : GM)
    (hs : sStore.getD 1 0 ≠ 0) (hg : gStore.getD 1 0 ≠ 0) :
    scriptSetArrayBuffer v sStore sm
        = (some "You cannot mutate an existing arrayBuffer field.", sm, sStore)
    ∧ gameSetArrayBuffer n gStore gm
        = (some "You cannot mutate an existing arrayBuffer field.", gm, gStore) := by
  constructor
  · unfold scriptSetArrayBuffer
    rw [if_pos hs]
  · unfold gameSetArrayBuffer
    rw [if_pos hg]

/-- Witness for C10 at a concrete initialized store. -/
theorem setArrayBuffer_write_once_witness :
    (([0, 5] : List Nat).getD 1 0 ≠ 0)
    ∧ scriptSetArrayBuffer [1, 2] [0, 5] smEmpty
        = (some "You cannot mutate an existing arrayBuffer field.", smEmpty, [0, 5])
    ∧ gameSetArrayBuffer 3 [0, 5] gmEmpty
        = (some "You cannot mutate an existing arrayBuffer field.", gmEmpty, [0, 5]) :=
  ⟨by decide,
    (setArrayBuffer_write_once [1, 2] 3 [0, 5] [0, 5] smEmpty gmEmpty
      (by decide) (by decide)).1,
    (setArrayBuffer_write_once [1, 2] 3 [0, 5] [0, 5] smEmpty gmEmpty
      (by decide) (by decide)).2⟩

/-! ### C7 -/

/-- C7: back-reference schema fields are excluded from the computed
dependency byte offsets (filtering them out of the schema leaves the
offsets unchanged), and the script-side `setRef` with the back-reference
flag set performs no reference-count increment or decrement. -/
theorem backref_fields_uncounted (schema : List (String × SchemaProp))
    (value : Option ScriptRemoteRef) (store : List Nat) (rc : List (Nat × Int)) :
    dependencyByteOffsets schema
      = dependencyByteOffsets (schema.filter (fun p => !p.2.backRef))
    ∧ (scriptSetRef value store true rc).1 = rc := by
  constructor
  · induction schema with
    | nil => rfl
    | cons hd tl ih =>
      by_cases hb : hd.2.backRef
      · simp [dependencyByteOffsets, List.filter, hb, ih]
      · simp only [List.filter, hb, Bool.not_false]
        by_cases hr : isRefKind hd.2.propType
        · simp [dependencyByteOffsets, hb, hr, ih]
        · by_cases ha : hd.2.propType = "arrayBuffer"
          · simp [dependencyByteOffsets, hb, hr, ha, ih]
          · simp [dependencyByteOffsets, hb, hr, ha, ih]
  · simp [scriptSetRef]

/-! ### C3 -/

/-- C3 counterexample: on the game-side manager, `setRefArrayItem` with
the very resource the slot already holds (id 7 stored at index 0) still
increments that reference count — the claim that re-setting the same
resource performs no increment or decrement fails. -/
theorem same_ref_set_counterexample :
    (gameSetRefArrayItem 0 (some gRes7) [7] gmC3).1.ctx.refCounts
      ≠ gmC3.ctx.refCounts := by decide

/-- C3 amended: re-setting the same resource is a reference-count no-op
only in these cases — the script-side `setString` leaves the state and
store unchanged when the string value is unchanged, and the script-side
`setRef`/`setRefArrayItem` skip reference-count updates exactly when the
new value resourceId equals the word already stored (which holds the
previous value WASM pointer, not its id): when the two differ, the
non-zero new id count is incremented and the non-zero stored word count
is decremented, so re-setting a resource whose pointer differs from its
id changes its count.  The game-side `setRefArrayItem` increments the
new value count unconditionally, even when the slot already holds it. -/
theorem same_ref_set_refcounts (sm : SM) (store : List Nat) (value : String)
    (v : ScriptRemoteRef) (idx : Nat) (rc : List (Nat × Int)) (gm : GM) :
    (scriptCurStringValue sm store = value → scriptSetString value store sm = (sm, store))
    ∧ (v.resourceId = store.getD 0 0 →
        ∀ bk, (scriptSetRef (some v) store bk rc).1 = rc)
    ∧ (v.resourceId = store.getD idx 0 →
        (scriptSetRefArrayItem idx (some v) store rc).1 = rc)
    ∧ (v.resourceId ≠ store.getD 0 0 →
        (v.resourceId ≠ 0 →
          getCount (scriptSetRef (some v) store false rc).1 v.resourceId
            = getCount rc v.resourceId + 1)
        ∧ (store.getD 0 0 ≠ 0 →
          getCount (scriptSetRef (some v) store false rc).1 (store.getD 0 0)
            = getCount rc (store.getD 0 0) - 1))
    ∧ (v.resourceId ≠ store.getD idx 0 →
        (v.resourceId ≠ 0 →
          getCount (scriptSetRefArrayItem idx (some v) store rc).1 v.resourceId
            = getCount rc v.resourceId + 1)
        ∧ (store.getD idx 0 ≠ 0 →
          getCount (scriptSetRefArrayItem idx (some v) store rc).1 (store.getD idx 0)
            = getCount rc (store.getD idx 0) - 1))
    ∧ (∀ g : GameRes,
        getCount ((gameSetRefArrayItem idx (some g) store gm).1.ctx.refCounts) g.resourceId
          = getCount gm.ctx.refCounts g.resourceId + 1) := by
  refine ⟨?_, ?_, ?_, ?_, ?_, ?_⟩
  · intro h
    unfold scriptSetString
    rw [if_pos h]
  · intro h bk
    simp [scriptSetRef, h]
  · intro h
    simp [scriptSetRefArrayItem, h]
  · intro hne
    have hproj : (scriptSetRef (some v) store false rc).1
        = (if (false = false) ∧ store.getD 0 0 ≠ 0 ∧ v.resourceId ≠ store.getD 0 0 then
            removeResourceRef
              (if (false = false) ∧ v.resourceId ≠ 0 ∧ v.resourceId ≠ store.getD 0 0 then
                addResourceRef rc v.resourceId
              else rc)
              (store.getD 0 0)
          else
            (if (false = false) ∧ v.resourceId ≠ 0 ∧ v.resourceId ≠ store.getD 0 0 then
              addResourceRef rc v.resourceId
            else rc)) := rfl
    constructor
    · intro hn0
      rw [hproj]
      by_cases hc0 : store.getD 0 0 = 0
      · rw [if_neg (fun hc => hc.2.1 hc0), if_pos ⟨rfl, hn0, hne⟩]
        exact getCount_addResourceRef_self rc v.resourceId
      · rw [if_pos ⟨rfl, hc0, hne⟩, if_pos ⟨rfl, hn0, hne⟩]
        rw [getCount_removeResourceRef_ne _ _ _ hne]
        exact getCount_addResourceRef_self rc v.resourceId
    · intro hc0
      rw [hproj, if_pos ⟨rfl, hc0, hne⟩, getCount_removeResourceRef_self]
      by_cases hn0 : v.resourceId ≠ 0
      · rw [if_pos ⟨rfl, hn0, hne⟩,
          getCount_addResourceRef_ne _ _ _ (fun e => hne e.symm)]
      · rw [if_neg (fun hc => hn0 hc.2.1)]
  · intro hne
    have hproj : (scriptSetRefArrayItem idx (some v) store rc).1
        = (if store.getD idx 0 ≠ 0 ∧ v.resourceId ≠ store.getD idx 0 then
            removeResourceRef
              (if v.resourceId ≠ 0 ∧ v.resourceId ≠ store.getD idx 0 then
                addResourceRef rc v.resourceId
              else rc)
              (store.getD idx 0)
          else
            (if v.resourceId ≠ 0 ∧ v.resourceId ≠ store.getD idx 0 then
              addResourceRef rc v.resourceId
            else rc)) := rfl
    constructor
    · intro hn0
      rw [hproj]
      by_cases hc0 : store.getD idx 0 = 0
      · rw [if_neg (fun hc => hc.1 hc0), if_pos ⟨hn0, hne⟩]
        exact getCount_addResourceRef_self rc v.resourceId
      · rw [if_pos ⟨hc0, hne⟩, if_pos ⟨hn0, hne⟩]
        rw [getCount_removeResourceRef_ne _ _ _ hne]
        exact getCount_addResourceRef_self rc v.resourceId
    · intro hc0
      rw [hproj, if_pos ⟨hc0, hne⟩, getCount_removeResourceRef_self]
      by_cases hn0 : v.resourceId ≠ 0
      · rw [if_pos ⟨hn0, hne⟩,
          getCount_addResourceRef_ne _ _ _ (fun e => hne e.symm)]
      · rw [if_neg (fun hc => hn0 hc.1)]
  · intro g
    simp [gameSetRefArrayItem, addGameRef, getCount_addResourceRef_self]

/-- Witness for C3 (amended) at concrete inputs: the skip cases, the
increment/decrement of differing ids, and the unconditional game-side
increment. -/
theorem same_ref_set_refcounts_witness :
    scriptSetString "" [0] smEmpty = (smEmpty, [0])
    ∧ (scriptSetRef (some ⟨5, 9⟩) [5] false []).1 = ([] : List (Nat × Int))
    ∧ (scriptSetRefArrayItem 0 (some ⟨5, 9⟩) [5] []).1 = ([] : List (Nat × Int))
    ∧ getCount (scriptSetRef (some ⟨2, 8⟩) [8] false []).1 2
        = getCount ([] : List (Nat × Int)) 2 + 1
    ∧ getCount (scriptSetRef (some ⟨2, 8⟩) [8] false []).1 8
        = getCount ([] : List (Nat × Int)) 8 - 1
    ∧ getCount (scriptSetRefArrayItem 0 (some ⟨2, 8⟩) [8] []).1 2
        = getCount ([] : List (Nat × Int)) 2 + 1
    ∧ getCount (scriptSetRefArrayItem 0 (some ⟨2, 8⟩) [8] []).1 8
        = getCount ([] : List (Nat × Int)) 8 - 1
    ∧ getCount ((gameSetRefArrayItem 0 (some gRes7) [8] gmC3).1.ctx.refCounts) 7
        = getCount gmC3.ctx.refCounts 7 + 1 :=
  ⟨(same_ref_set_refcounts smEmpty [0] "" ⟨5, 9⟩ 0 [] gmC3).1 (by decide),
    (same_ref_set_refcounts smEmpty [5] "" ⟨5, 9⟩ 0 [] gmC3).2.1 (by decide) false,
    (same_ref_set_refcounts smEmpty [5] "" ⟨5, 9⟩ 0 [] gmC3).2.2.1 (by decide),
    ((same_ref_set_refcounts smEmpty [8] "" ⟨2, 8⟩ 0 [] gmC3).2.2.2.1 (by decide)).1
      (by decide),
    ((same_ref_set_refcounts smEmpty [8] "" ⟨2, 8⟩ 0 [] gmC3).2.2.2.1 (by decide)).2
      (by decide),
    ((same_ref_set_refcounts smEmpty [8] "" ⟨2, 8⟩ 0 [] gmC3).2.2.2.2.1 (by decide)).1
      (by decide),
    ((same_ref_set_refcounts smEmpty [8] "" ⟨2, 8⟩ 0 [] gmC3).2.2.2.2.1 (by decide)).2
      (by decide),
    (same_ref_set_refcounts smEmpty [8] "" ⟨2, 8⟩ 0 [] gmC3).2.2.2.2.2 gRes7⟩

/-! ### C2 -/

theorem findIdxRes_eq_none (l : List RemoteRes) (id : Nat)
    (h : ∀ r ∈ l, r.resourceId ≠ id) : findIdxRes l id = none := by
  induction l with
  | nil => rfl
  | cons x rest ih =>
    simp only [findIdxRes]
    rw [if_neg (h x (List.mem_cons_self x rest)), ih (fun r hr => h r (List.mem_cons_of_mem x hr))]
    rfl

theorem findIdxRes_erase_none (l : List RemoteRes) (id : Nat) (i : Nat)
    (hnd : (l.map (fun r => r.resourceId)).Nodup)
    (hf : findIdxRes l id = some i) :
    findIdxRes (l.eraseIdx i) id = none := by
  induction l generalizing i with
  | nil => simp [findIdxRes] at hf
  | cons x rest ih =>
    rw [List.map_cons, List.nodup_cons] at hnd
    obtain ⟨hx, hrest⟩ := hnd
    by_cases hxi : x.resourceId = id
    · simp only [findIdxRes, if_pos hxi] at hf
      cases hf
      subst hxi
      exact findIdxRes_eq_none rest _
        (fun r hr hEq => hx (hEq ▸ List.mem_map_of_mem (fun r => r.resourceId) hr))
    · simp only [findIdxRes, if_neg hxi] at hf
      cases hrf : findIdxRes rest id with
      | none => rw [hrf] at hf; simp at hf
      | some j =>
        rw [hrf] at hf
        simp only [Option.map_some'] at hf
        cases hf
        simp only [List.eraseIdx, findIdxRes, if_neg hxi, ih j hrest hrf]
        rfl

/-- Example script manager with a single disposable resource. -/
def smW : SM :=
  ⟨[], [⟨1, "mesh", 4, ⟨[], [], []⟩, false⟩], [(4, 1)], [(1, ⟨[]⟩)],
    [("mesh", ⟨[], [], 0⟩)], [], [], [], 2, [], 100⟩

/-- The state left by the first successful disposal on `smW`. -/
def smW1 : SM :=
  ⟨[], [], [], [], [("mesh", ⟨[], [], 0⟩)], [], [], [], 2, [4], 100⟩

/-- C2 counterexample: the game-side `disposeResource` has no boolean
result and is not idempotent.  In `gmC2`, resource 1 holds a ref to
resource 7 (count 2); after a first successful disposal the remote-table
entry for 1 persists, so a second call walks the schema again and
decrements the count of 7 once more — an observable side effect, so the
claim fails as stated on the game-side variant. -/
theorem dispose_twice_counterexample :
    gameDisposeResource (gameDisposeResource gmC2 1) 1 ≠ gameDisposeResource gmC2 1 := by
  decide

/-- C2 amended: the script-side `disposeResource` is idempotent — on an
unknown id it returns `false` with the manager state untouched, and
after a successful disposal (with distinct live resource ids) a second
call returns `false` and changes nothing.  The game-side variant returns
no value; it leaves all state unchanged when the id has no remote-table
entry, but is not idempotent in general (see the counterexample). -/
theorem dispose_twice (sm : SM) (id : Nat) (gm : GM) :
    (findIdxRes sm.resources id = none → scriptDisposeResource sm id = .ok (false, sm))
    ∧ (∀ sm1, (sm.resources.map (fun r => r.resourceId)).Nodup →
        scriptDisposeResource sm id = .ok (true, sm1) →
        scriptDisposeResource sm1 id = .ok (false, sm1))
    ∧ (lookupA gm.ctx.remote id = none → gameDisposeResource gm id = gm) := by
  refine ⟨?_, ?_, ?_⟩
  · intro h
    unfold scriptDisposeResource
    rw [h]
  · intro sm1 hnd h
    unfold scriptDisposeResource at h
    split at h
    · simp at h
    next index hf =>
      split at h
      · simp at h
      next resource hg =>
        split at h
        · simp at h
        next transform ht =>
          split at h
          · simp at h
          · simp only [Except.ok.injEq, Prod.mk.injEq, true_and] at h
            have hres : findIdxRes sm1.resources id = none := by
              rw [← h]
              exact findIdxRes_erase_none sm.resources id index hnd hf
            unfold scriptDisposeResource
            rw [hres]
  · intro h
    unfold gameDisposeResource
    rw [h]

/-- Witness for C2 (amended): a concrete successful disposal followed by
a second call, and a game-side call on an absent id. -/
theorem dispose_twice_witness :
    scriptDisposeResource smW1 1 = .ok (false, smW1)
    ∧ gameDisposeResource gmEmpty 5 = gmEmpty :=
  ⟨(dispose_twice smW 1 gmEmpty).2.1 smW1 (by decide) (by rfl),
    (dispose_twice smW 1 gmEmpty).2.2 (by rfl)⟩

/-! ### C5 -/

/-- The translated scratch view a script-side commit publishes for a
resource (derived from `scriptCommitResource`). -/
def commitScratchOf (sm : SM) (res : RemoteRes) : List Nat :=
  match lookupS sm.transforms res.resourceType with
  | none => []
  | some t =>
    (commitRefLoop sm.ptrToResourceId sm.heap res.ptr t 0 t.refOffsets.length
      ⟨sm.refCounts, sm.remoteStrings, sm.nextId,
        (match lookupA sm.storage res.resourceId with
          | some st => st.prevRefs
          | none => []),
        heapSlice sm.heap res.ptr t.byteLenW⟩).scratch

theorem TB.slot_setSlot_self (tb : TB) (i : Fin 3) (v : List Nat) :
    (tb.setSlot i v).slot i = v := by
  fin_cases i <;> rfl

theorem TB.slot_setSlot_ne (tb : TB) (i j : Fin 3) (v : List Nat) (h : j ≠ i) :
    (tb.setSlot i v).slot j = tb.slot j := by
  fin_cases i <;> fin_cases j <;> first | rfl | exact absurd rfl h

/-- Uninitialized game resource committed: all three slots get the bytes. -/
def gmC5res0 : GameRes := ⟨3, [], [], [10, 11], ⟨[7], [8], [9]⟩, false⟩

/-- Initialized game resource committed: only the write slot changes. -/
def gmC5res1 : GameRes := ⟨4, [], [], [10, 11], ⟨[7], [8], [9]⟩, true⟩

def gmC5 : GM := ⟨[gmC5res0, gmC5res1], ⟨[], [], [], [], 1⟩⟩

/-- Script manager with one uninitialized resource ready to commit. -/
def smC5 : SM :=
  ⟨[3], [⟨1, "light", 0, ⟨[7], [8], [9]⟩, false⟩], [], [(1, ⟨[]⟩)],
    [("light", ⟨[], [], 1⟩)], [], [], [], 2, [], 100⟩

def resC5 : RemoteRes := ⟨1, "light", 0, ⟨[7], [8], [9]⟩, false⟩

def resC5post : RemoteRes := ⟨1, "light", 0, ⟨[3], [3], [3]⟩, true⟩

/-- C5: in both variants, the first commit of a resource copies the
published view identically into all three triple-buffer slots and sets
its `initialized` flag, while every later commit writes the single write
slot, leaving the two other slots untouched. -/
theorem commit_triple_buffer_slots (writeIdx : Fin 3) (gm : GM) (k : Nat)
    (r : GameRes) (sm : SM) (res : RemoteRes) (sm1 : SM) (res1 : RemoteRes)
    (hk : gm.resources.get? k = some r)
    (h : scriptCommitResource writeIdx sm res = .ok (sm1, res1)) :
    ((gameCommitResources writeIdx gm).resources.get? k
        = some (gameCommitResource writeIdx r))
    ∧ (r.initialized = false →
        gameCommitResource writeIdx r
          = { r with tb := ⟨r.byteView, r.byteView, r.byteView⟩, initialized := true })
    ∧ (r.initialized = true →
        (gameCommitResource writeIdx r).tb.slot writeIdx = r.byteView
        ∧ ∀ i : Fin 3, i ≠ writeIdx →
            (gameCommitResource writeIdx r).tb.slot i = r.tb.slot i)
    ∧ (res.initialized = false →
        res1.tb.s0 = res1.tb.s1 ∧ res1.tb.s1 = res1.tb.s2 ∧ res1.initialized = true)
    ∧ (res.initialized = true →
        res1.initialized = true
        ∧ ∀ i : Fin 3, i ≠ writeIdx → res1.tb.slot i = res.tb.slot i) := by
  have hres1 : res1 =
      (if res.initialized then
        { res with tb := copyToWriteBuffer writeIdx res.tb (commitScratchOf sm res) }
      else
        { res with tb := ⟨commitScratchOf sm res, commitScratchOf sm res,
            commitScratchOf sm res⟩, initialized := true }) := by
    unfold scriptCommitResource at h
    split at h
    · simp at h
    next t ht =>
      split at h
      · simp at h
      · simp only [Except.ok.injEq, Prod.mk.injEq] at h
        rw [← h.2]
        unfold commitScratchOf
        rw [ht]
  refine ⟨?_, ?_, ?_, ?_, ?_⟩
  · unfold gameCommitResources
    simp only [List.get?_map, hk, Option.map_some']
  · intro h0
    unfold gameCommitResource
    rw [h0]
    simp
  · intro h1
    unfold gameCommitResource
    rw [h1]
    simp only [if_pos rfl]
    constructor
    · exact TB.slot_setSlot_self r.tb writeIdx r.byteView
    · intro i hi
      exact TB.slot_setSlot_ne r.tb writeIdx i r.byteView hi
  · intro h0
    rw [hres1, if_neg (by rw [h0]; exact Bool.false_ne_true)]
    exact ⟨rfl, rfl, rfl⟩
  · intro h1
    rw [hres1, if_pos h1]
    refine ⟨h1, fun i hi => ?_⟩
    exact TB.slot_setSlot_ne res.tb writeIdx i _ hi

/-! ### C6 -/

theorem getD_replicate_zero (k o : Nat) : (List.replicate k (0 : Nat)).getD o 0 = 0 := by
  induction k generalizing o with
  | zero => cases o <;> rfl
  | succ k ih =>
    cases o with
    | zero => rfl
    | succ o => exact ih o

theorem getD_append_replicate (l : List Nat) (k o : Nat) :
    (l ++ List.replicate k (0 : Nat)).getD o 0 = l.getD o 0 := by
  induction l generalizing o with
  | nil =>
    rw [List.nil_append, getD_replicate_zero]
    cases o <;> rfl
  | cons x rest ih =>
    cases o with
    | zero => rfl
    | succ o => exact ih o

theorem getD_set_self (l : List Nat) (i v : Nat) (hi : i < l.length) :
    (l.set i v).getD i 0 = v := by
  induction l generalizing i with
  | nil => cases hi
  | cons x rest ih =>
    cases i with
    | zero => rfl
    | succ i => exact ih i (Nat.lt_of_succ_lt_succ hi)

theorem getD_set_ne (l : List Nat) (i o v : Nat) (h : o ≠ i) :
    (l.set i v).getD o 0 = l.getD o 0 := by
  induction l generalizing i o with
  | nil => rfl
  | cons x rest ih =>
    cases i with
    | zero =>
      cases o with
      | zero => exact absurd rfl h
      | succ o => rfl
    | succ i =>
      cases o with
      | zero => rfl
      | succ o => exact ih i o (fun e => h (by rw [e]))

theorem getD_setPadN_self (l : List Nat) (i v : Nat) :
    (setPadN l i v).getD i 0 = v := by
  unfold setPadN
  apply getD_set_self
  rw [List.length_append, List.length_replicate]
  omega

theorem getD_setPadN_ne (l : List Nat) (i o v : Nat) (h : o ≠ i) :
    (setPadN l i v).getD o 0 = l.getD o 0 := by
  unfold setPadN
  rw [getD_set_ne _ _ _ _ h, getD_append_replicate]

theorem get?_eq_getD (l : List Nat) (i : Nat) (h : i < l.length) :
    l.get? i = some (l.getD i 0) := by
  induction l generalizing i with
  | nil => cases h
  | cons x rest ih =>
    cases i with
    | zero => rfl
    | succ i => exact ih i (Nat.lt_of_succ_lt_succ h)

/-- The values a script-side commit may publish at a ref offset: zero, a
resource id present in the ptr→id table, or a fresh id minted during the
commit (at least the id counter before the commit): never a word taken
directly from the WASM heap. -/
def publishedOk (n0 : Nat) (table : List (Nat × Nat)) (v : Nat) : Prop :=
  v = 0 ∨ v ∈ table.map Prod.snd ∨ n0 ≤ v

theorem lookupA_mem_snd {α : Type} (table : List (Nat × α)) (p : Nat) (v : α)
    (h : lookupA table p = some v) : v ∈ table.map Prod.snd := by
  induction table with
  | nil => simp [lookupA] at h
  | cons x rest ih =>
    cases x with
    | mk k w =>
      simp only [lookupA] at h
      by_cases hx : k = p
      · rw [if_pos hx] at h
        cases h
        exact List.mem_cons_self _ _
      · rw [if_neg hx] at h
        exact List.mem_cons_of_mem _ (ih h)

theorem commitPrevRelease_fields (table : List (Nat × Nat)) (acc : CommitAcc)
    (prevRefPtr : Option Nat) :
    (commitPrevRelease table acc prevRefPtr).scratch = acc.scratch
    ∧ (commitPrevRelease table acc prevRefPtr).nextId = acc.nextId := by
  unfold commitPrevRelease
  split
  · split
    · split <;> exact ⟨rfl, rfl⟩
    · exact ⟨rfl, rfl⟩
  · exact ⟨rfl, rfl⟩

theorem commitMarkPrev_fields (table : List (Nat × Nat)) (acc : CommitAcc)
    (j nextRefPtr : Nat) :
    (commitMarkPrev table acc j nextRefPtr).scratch = acc.scratch
    ∧ (commitMarkPrev table acc j nextRefPtr).nextId = acc.nextId := by
  unfold commitMarkPrev
  exact commitPrevRelease_fields table acc (acc.prevRefs.getD j none)

theorem publishedOk_of_lookup_getD (n0 : Nat) (table : List (Nat × Nat)) (p : Nat) :
    publishedOk n0 table ((lookupA table p).getD 0) := by
  cases hv : lookupA table p with
  | none => exact Or.inl rfl
  | some w => exact Or.inr (Or.inl (lookupA_mem_snd table p w hv))

theorem commitRefValue_good (table : List (Nat × Nat)) (heap : List Nat)
    (ptrW : Nat) (t : Transform) (acc : CommitAcc) (j : Nat) (refOffsetB : Nat)
    (n0 : Nat) (hn : n0 ≤ acc.nextId) :
    (commitRefValue table heap ptrW t acc j refOffsetB).1.scratch = acc.scratch
    ∧ n0 ≤ (commitRefValue table heap ptrW t acc j refOffsetB).1.nextId
    ∧ publishedOk n0 table (commitRefValue table heap ptrW t acc j refOffsetB).2 := by
  obtain ⟨hms, hmn⟩ := commitMarkPrev_fields table acc j (heap.getD (ptrW + refOffsetB / 4) 0)
  unfold commitRefValue
  split
  · split
    · exact ⟨hms, by rw [hmn]; exact Nat.le_trans hn (Nat.le_succ _),
        Or.inr (Or.inr (by rw [hmn]; exact hn))⟩
    · exact ⟨hms, by rw [hmn]; exact hn, publishedOk_of_lookup_getD n0 table _⟩
  · exact ⟨rfl, hn, publishedOk_of_lookup_getD n0 table _⟩

theorem commitRefStep_good (table : List (Nat × Nat)) (heap : List Nat)
    (ptrW : Nat) (t : Transform) (acc : CommitAcc) (j : Nat) (n0 : Nat)
    (hn : n0 ≤ acc.nextId) :
    n0 ≤ (commitRefStep table heap ptrW t acc j).nextId
    ∧ ∀ o, (commitRefStep table heap ptrW t acc j).scratch.getD o 0 = acc.scratch.getD o 0
        ∨ publishedOk n0 table ((commitRefStep table heap ptrW t acc j).scratch.getD o 0) := by
  unfold commitRefStep
  cases hj : t.refOffsets.get? j with
  | none => exact ⟨hn, fun o => Or.inl rfl⟩
  | some refOffsetB =>
    obtain ⟨hsc, hni, hok⟩ := commitRefValue_good table heap ptrW t acc j refOffsetB n0 hn
    refine ⟨hni, fun o => ?_⟩
    by_cases ho : o = refOffsetB / 4
    · subst ho
      rw [getD_setPadN_self]
      exact Or.inr hok
    · rw [getD_setPadN_ne _ _ _ _ ho, hsc]
      exact Or.inl rfl

theorem commitRefLoop_good_pres (table : List (Nat × Nat)) (heap : List Nat)
    (ptrW : Nat) (t : Transform) (fuel : Nat) (j : Nat) (acc : CommitAcc)
    (p : Nat) (n0 : Nat) (hn : n0 ≤ acc.nextId)
    (hp : publishedOk n0 table (acc.scratch.getD p 0)) :
    n0 ≤ (commitRefLoop table heap ptrW t j fuel acc).nextId
    ∧ publishedOk n0 table ((commitRefLoop table heap ptrW t j fuel acc).scratch.getD p 0) := by
  induction fuel generalizing j acc with
  | zero => exact ⟨hn, hp⟩
  | succ fuel ih =>
    obtain ⟨hni, hsc⟩ := commitRefStep_good table heap ptrW t acc j n0 hn
    refine ih (j + 1) (commitRefStep table heap ptrW t acc j) hni ?_
    rcases hsc p with he | hgood
    · rw [he]; exact hp
    · exact hgood

theorem commitRefLoop_writes_good (table : List (Nat × Nat)) (heap : List Nat)
    (ptrW : Nat) (t : Transform) (fuel : Nat) (j k : Nat) (acc : CommitAcc)
    (n0 : Nat) (hn : n0 ≤ acc.nextId) (hk : k < fuel)
    (hrange : j + k < t.refOffsets.length) :
    publishedOk n0 table
      ((commitRefLoop table heap ptrW t j fuel acc).scratch.getD
        (t.refOffsets.getD (j + k) 0 / 4) 0) := by
  induction fuel generalizing j k acc with
  | zero => cases hk
  | succ fuel ih =>
    cases k with
    | zero =>
      have hoff : t.refOffsets.get? j = some (t.refOffsets.getD j 0) :=
        get?_eq_getD _ _ (by omega)
      obtain ⟨hsc, hni, hok⟩ :=
        commitRefValue_good table heap ptrW t acc j (t.refOffsets.getD j 0) n0 hn
      have hstep : (commitRefStep table heap ptrW t acc j).scratch.getD
          (t.refOffsets.getD (j + 0) 0 / 4) 0
            = (commitRefValue table heap ptrW t acc j (t.refOffsets.getD j 0)).2 := by
        unfold commitRefStep
        rw [hoff]
        simp only [Nat.add_zero]
        exact getD_setPadN_self _ _ _
      have hpres := commitRefLoop_good_pres table heap ptrW t fuel (j + 1)
        (commitRefStep table heap ptrW t acc j) (t.refOffsets.getD (j + 0) 0 / 4) n0
        (commitRefStep_good table heap ptrW t acc j n0 hn).1
        (by rw [hstep]; exact hok)
      exact hpres.2
    | succ k =>
      have hthis := ih (j + 1) k (commitRefStep table heap ptrW t acc j)
        (commitRefStep_good table heap ptrW t acc j n0 hn).1
        (Nat.lt_of_succ_lt_succ hk) (by omega)
      have h2 : j + 1 + k = j + (k + 1) := by omega
      rw [h2] at hthis
      exact hthis

theorem TB.slot_const (v : List Nat) (i : Fin 3) : (TB.mk v v v).slot i = v := by
  fin_cases i <;> rfl

/-- C6 amended: after a script-side commit publishes a resource, every
reference-typed word offset of the published write view holds either 0,
a resource id present in the producer ptr→id table, or a string-resource
id freshly minted during the commit (for a changed string pointer absent
from the table) — never a word read directly from the WASM heap; the
ptr→id table itself is unchanged by the commit.  The original claim,
which allows only the table value or 0, fails on the fresh-id path (see
the counterexample). -/
theorem commit_publishes_resource_ids (writeIdx : Fin 3) (sm : SM)
    (res : RemoteRes) (sm1 : SM) (res1 : RemoteRes) (t : Transform)
    (ht : lookupS sm.transforms res.resourceType = some t)
    (h : scriptCommitResource writeIdx sm res = .ok (sm1, res1)) (j : Nat)
    (hj : j < t.refOffsets.length) :
    sm1.ptrToResourceId = sm.ptrToResourceId
    ∧ publishedOk sm.nextId sm.ptrToResourceId
        ((res1.tb.slot writeIdx).getD (t.refOffsets.getD j 0 / 4) 0) := by
  unfold scriptCommitResource at h
  split at h
  · simp at h
  next t2 ht2 =>
    rw [ht] at ht2
    injection ht2 with hEq
    subst hEq
    split at h
    · simp at h
    · simp only [Except.ok.injEq, Prod.mk.injEq] at h
      constructor
      · rw [← h.1]
      · have hslot : res1.tb.slot writeIdx
            = (commitRefLoop sm.ptrToResourceId sm.heap res.ptr t 0 t.refOffsets.length
                ⟨sm.refCounts, sm.remoteStrings, sm.nextId,
                  (match lookupA sm.storage res.resourceId with
                    | some st => st.prevRefs
                    | none => []),
                  heapSlice sm.heap res.ptr t.byteLenW⟩).scratch := by
          rw [← h.2]
          by_cases hinit : res.initialized = true
          · rw [if_pos hinit]
            exact TB.slot_setSlot_self _ _ _
          · rw [if_neg hinit]
            exact TB.slot_const _ _
        rw [hslot]
        have hgood := commitRefLoop_writes_good sm.ptrToResourceId sm.heap res.ptr t
          t.refOffsets.length 0 j
          ⟨sm.refCounts, sm.remoteStrings, sm.nextId,
            (match lookupA sm.storage res.resourceId with
              | some st => st.prevRefs
              | none => []),
            heapSlice sm.heap res.ptr t.byteLenW⟩
          sm.nextId (Nat.le_refl _) hj (by omega)
        simpa using hgood

/-- Script manager for the C6 counterexample: one string-ref resource
whose stored heap pointer (9) has no ptr→id table entry. -/
def smC6 : SM :=
  ⟨[9], [⟨1, "thing", 0, ⟨[], [], []⟩, false⟩], [], [(1, ⟨[]⟩)],
    [("thing", ⟨[0], [true], 1⟩)], [], [], [], 5, [], 100⟩

def resC6 : RemoteRes := ⟨1, "thing", 0, ⟨[], [], []⟩, false⟩

/-- C6 counterexample: committing `resC6` publishes the freshly minted
string-resource id 5 at the ref offset — not 0, although the ptr→id
table holds no value at the stored pointer 9 — so the published word is
neither the table value at the stored pointer nor 0, refuting the claim
as stated (the raw pointer 9 is still not published). -/
theorem commit_publishes_resource_ids_counterexample :
    lookupA smC6.ptrToResourceId 9 = none
    ∧ smC6.heap.getD resC6.ptr 0 = 9
    ∧ (match scriptCommitResource 0 smC6 resC6 with
        | .ok (_, r1) => (r1.tb.slot 0).getD 0 0
        | .error _ => 0) = 5
    ∧ (5 : Nat) ≠ 0 := by
  refine ⟨rfl, rfl, ?_, by decide⟩
  rfl

/-- Witness for C6 (amended) at the same concrete commit. -/
theorem commit_publishes_resource_ids_witness :
    smC6.ptrToResourceId = smC6.ptrToResourceId
    ∧ publishedOk smC6.nextId smC6.ptrToResourceId
        (((RemoteRes.mk 1 "thing" 0 ⟨[5], [5], [5]⟩ true).tb.slot 0).getD
          (((Transform.mk [0] [true] 1).refOffsets.getD 0 0) / 4) 0) := by
  exact commit_publishes_resource_ids 0 smC6 resC6
    ⟨[9], [⟨1, "thing", 0, ⟨[], [], []⟩, false⟩], [], [(1, ⟨[some 9]⟩)],
      [("thing", ⟨[0], [true], 1⟩)], [], [(5, "")], [], 6, [], 100⟩
    ⟨1, "thing", 0, ⟨[5], [5], [5]⟩, true⟩
    ⟨[0], [true], 1⟩ (by rfl) (by rfl) 0 (by decide)

/-- Witness for C5 at a concrete first commit (script) and a concrete
later commit (game). -/
theorem commit_triple_buffer_slots_witness :
    ((gameCommitResources 0 gmC5).resources.get? 1
        = some (gameCommitResource 0 gmC5res1))
    ∧ ((gameCommitResource 0 gmC5res1).tb.slot 0 = gmC5res1.byteView
        ∧ ∀ i : Fin 3, i ≠ 0 →
            (gameCommitResource 0 gmC5res1).tb.slot i = gmC5res1.tb.slot i)
    ∧ (resC5post.tb.s0 = resC5post.tb.s1 ∧ resC5post.tb.s1 = resC5post.tb.s2
        ∧ resC5post.initialized = true) :=
  ⟨(commit_triple_buffer_slots 0 gmC5 1 gmC5res1 smC5 resC5 smC5 resC5post
      (by rfl) (by rfl)).1,
    (commit_triple_buffer_slots 0 gmC5 1 gmC5res1 smC5 resC5 smC5 resC5post
      (by rfl) (by rfl)).2.2.1 (by rfl),
    (commit_triple_buffer_slots 0 gmC5 1 gmC5res1 smC5 resC5 smC5 resC5post
      (by rfl) (by rfl)).2.2.2.1 (by rfl)⟩

/-! ### C8 -/

/-- A consumer-side deferred, reduced to its timeout configuration. -/
structure Deferred where
  timeoutMs : Nat
  timeoutMessage : Option String
  deriving DecidableEq

def defaultDeferredTimeoutMs : Nat := 30000

/-- Modelled from the spec: `createDeferred` (utils/Deferred.ts, not in
the reviewed tree) creates a single-settlement deferred that is
"rejected with a timeout error (default 30s) if loading never
completes"; an omitted timeout argument (`none`) therefore falls back to
30000 ms. -/
def createDeferred (timeout : Option Nat) (message : Option String) : Deferred :=
  ⟨timeout.getD defaultDeferredTimeoutMs, message⟩

/-- The deferred-acquisition step of `loadResource` (resource.common.ts
lines 130–135): reuse the existing deferred for the id or create one
with `createDeferred()` — no explicit timeout argument. -/
def loadResourceDeferred (m : List (Nat × Deferred)) (id : Nat) : List (Nat × Deferred) :=
  match lookupA m id with
  | some _ => m
  | none => insertA m id (createDeferred none none)

/-- `waitForLocalResource` (lines 270–288): reject a zero resource id;
otherwise reuse the existing deferred or create one with an explicit
30000 ms timeout and a descriptive message. -/
def waitForLocalResource (m : List (Nat × Deferred)) (id : Nat) (description : String) :
    Except String (List (Nat × Deferred) × Deferred) :=
  if id = 0 then .error "Cannot load a resourceId of 0."
  else
    match lookupA m id with
    | some deferred => .ok (m, deferred)
    | none =>
      let deferred := createDeferred (some 30000)
        (some ("Loading resource " ++ toString id ++ " " ++ description ++ " timed out."))
      .ok (insertA m id deferred, deferred)

/-- Every deferred of the map carries the 30-second timeout. -/
def allTimeout30 (m : List (Nat × Deferred)) : Prop :=
  ∀ p ∈ m, (p : Nat × Deferred).2.timeoutMs = 30000

theorem mem_of_mem_eraseA {α : Type} (m : List (Nat × α)) (k : Nat)
    (p : Nat × α) (h : p ∈ eraseA m k) : p ∈ m := by
  induction m with
  | nil => cases h
  | cons x rest ih =>
    cases x with
    | mk a v =>
      simp only [eraseA] at h
      by_cases ha : a = k
      · rw [if_pos ha] at h
        exact List.mem_cons_of_mem _ (ih h)
      · rw [if_neg ha] at h
        rcases List.mem_cons.mp h with he | hm
        · rw [he]
          exact List.mem_cons_self _ _
        · exact List.mem_cons_of_mem _ (ih hm)

theorem lookupA_mem {α : Type} (m : List (Nat × α)) (k : Nat) (v : α)
    (h : lookupA m k = some v) : (k, v) ∈ m := by
  induction m with
  | nil => simp [lookupA] at h
  | cons x rest ih =>
    cases x with
    | mk key w =>
      simp only [lookupA] at h
      by_cases hx : key = k
      · rw [if_pos hx] at h
        cases h
        rw [hx]
        exact List.mem_cons_self _ _
      · rw [if_neg hx] at h
        exact List.mem_cons_of_mem _ (ih h)

/-- C8: every deferred guarding a pending load on a consuming thread is
created with the default 30-second timeout — the path of
`waitForLocalResource` passes 30000 explicitly, and the path of
`loadResource` calls `createDeferred()` whose timeout parameter defaults
to 30000 — so the 30-second-timeout property is preserved by both
deferred-creating operations, and the deferred handed out by
`waitForLocalResource` carries it. -/
theorem deferred_timeout_default (m : List (Nat × Deferred)) (id : Nat)
    (d : String) (h30 : allTimeout30 m) :
    allTimeout30 (loadResourceDeferred m id)
    ∧ (∀ m1 df, waitForLocalResource m id d = .ok (m1, df) →
        allTimeout30 m1 ∧ df.timeoutMs = 30000) := by
  constructor
  · unfold loadResourceDeferred
    cases lookupA m id with
    | some _ => exact h30
    | none =>
      intro p hp
      rcases List.mem_cons.mp hp with he | hm
      · rw [he]
        rfl
      · exact h30 p (mem_of_mem_eraseA m id p hm)
  · intro m1 df h
    unfold waitForLocalResource at h
    split at h
    · simp at h
    · split at h
      next deferred hd =>
        simp only [Except.ok.injEq, Prod.mk.injEq] at h
        rw [← h.1, ← h.2]
        exact ⟨h30, h30 (id, deferred) (lookupA_mem m id deferred hd)⟩
      next hd =>
        simp only [Except.ok.injEq, Prod.mk.injEq] at h
        rw [← h.1, ← h.2]
        refine ⟨?_, rfl⟩
        intro p hp
        rcases List.mem_cons.mp hp with he | hm
        · rw [he]
          rfl
        · exact h30 p (mem_of_mem_eraseA m id p hm)

/-- Witness for C8 on the empty deferred map. -/
theorem deferred_timeout_default_witness :
    allTimeout30 (loadResourceDeferred [] 3)
    ∧ allTimeout30 [(3, Deferred.mk 30000 (some "Loading resource 3 light timed out."))] :=
  ⟨(deferred_timeout_default [] 3 "light" (by intro p hp; cases hp)).1,
    ((deferred_timeout_default [] 3 "light" (by intro p hp; cases hp)).2
      [(3, Deferred.mk 30000 (some "Loading resource 3 light timed out."))]
      (Deferred.mk 30000 (some "Loading resource 3 light timed out.")) (by rfl)).1⟩

/-! ### C4: the consumer-side disposal sweep -/

/-- The error kinds a deferred can be rejected with:
`ResourceDisposedError` (resource.common.ts line 76), the timeout error
of the deferred, and generic loader failures. -/
inductive ErrKind
  | disposed
  | timeout
  | generic
  deriving DecidableEq

/-- The settlement state of a deferred (single settlement, modelled from
the spec: a deferred is "never resolved and rejected both"). -/
inductive DefState
  | pending
  | resolvedOk
  | rejected (e : ErrKind)
  deriving DecidableEq

/-- A thread-local `LocalResourceInfo` as the disposal sweep reads it:
`statusDisposed` is the nonzero-byte of the currently readable slot of
its status TripleBuffer; `hasResource`/`hasDispose` describe the
`resource` field and its `dispose` method. -/
structure LocalInfo where
  resourceType : String
  loaded : Bool
  hasResource : Bool
  hasDispose : Bool
  statusDisposed : Bool
  deriving DecidableEq

/-- The resource-module state of a consuming thread, plus two ghost logs:
`settled` records the rejections performed by the current sweep and
`disposeCalls` the `resource.dispose(ctx)` invocations. -/
structure LocalState where
  resourceIds : List Nat
  infos : List (Nat × LocalInfo)
  deferreds : List (Nat × DefState)
  resourcesByType : List (String × List Nat)
  settled : List (Nat × ErrKind)
  disposeCalls : List Nat
  deriving DecidableEq

/-- `getResourceDisposed` (lines 313–324): false when the id has no info
record, otherwise the status byte of the readable slot. -/
def getResourceDisposed (s : LocalState) (resourceId : Nat) : Bool :=
  match lookupA s.infos resourceId with
  | none => false
  | some info => info.statusDisposed

def eraseS {α : Type} (m : List (String × α)) (key : String) : List (String × α) :=
  m.filter (fun p => p.1 != key)

def insertS {α : Type} (m : List (String × α)) (key : String) (v : α) : List (String × α) :=
  (key, v) :: eraseS m key

/-- The deferred rejection of the sweep (lines 352–357): reject a still
present deferred with `ResourceDisposedError` — recorded in the ghost
`settled` log when it was actually pending (single settlement) — and
remove it from the map. -/
def rejectDeferredStep (s : LocalState) (resourceId : Nat) : LocalState :=
  match lookupA s.deferreds resourceId with
  | some d =>
    { s with
      settled := if d = DefState.pending then (resourceId, ErrKind.disposed) :: s.settled
        else s.settled
      deferreds := eraseA s.deferreds resourceId }
  | none => s

/-- Remove the first occurrence of the resource from its by-type array
(lines 359–368, `indexOf`/`splice`). -/
def spliceByType (m : List (String × List Nat)) (ty : String) (rid : Nat) :
    List (String × List Nat) :=
  match lookupS m ty with
  | none => m
  | some arr => insertS m ty (arr.erase rid)

/-- Lines 359–373: when the info holds a loaded resource object, remove
it from the by-type index and call its `dispose` method if present. -/
def removeResourceStep (s : LocalState) (info : LocalInfo) (resourceId : Nat) : LocalState :=
  if info.hasResource then
    if info.hasDispose then
      { s with
        resourcesByType := spliceByType s.resourcesByType info.resourceType resourceId
        disposeCalls := resourceId :: s.disposeCalls }
    else
      { s with resourcesByType := spliceByType s.resourcesByType info.resourceType resourceId }
  else s

/-- The sweep body for index `i` (lines 345–379): when the status bit of
the id at index `i` reads disposed, reject its deferred, drop its
resource object, and remove its info record and id entry. -/
def processIndex (i : Nat) (s : LocalState) : LocalState :=
  match s.resourceIds.get? i with
  | none => s
  | some resourceId =>
    if getResourceDisposed s resourceId then
      match lookupA s.infos resourceId with
      | none => s
      | some resourceInfo =>
        { removeResourceStep (rejectDeferredStep s resourceId) resourceInfo resourceId with
          infos := eraseA
            (removeResourceStep (rejectDeferredStep s resourceId) resourceInfo resourceId).infos
            resourceId
          resourceIds := (removeResourceStep (rejectDeferredStep s resourceId) resourceInfo
            resourceId).resourceIds.eraseIdx i }
    else s

def sweepFrom : Nat → LocalState → LocalState
  | 0, s => s
  | i + 1, s => sweepFrom i (processIndex i s)

/-- `ResourceDisposalSystem` (lines 342–381): iterate the live resource
ids in reverse creation order.  The ghost `settled` log is cleared on
entry, so it records exactly the rejections of this sweep. -/
def resourceDisposalSystem (s : LocalState) : LocalState :=
  sweepFrom s.resourceIds.length { s with settled := [] }

/-- Fields `removeResourceStep` leaves untouched. -/
theorem removeResourceStep_fields (s : LocalState) (info : LocalInfo) (rid : Nat) :
    (removeResourceStep s info rid).deferreds = s.deferreds
    ∧ (removeResourceStep s info rid).settled = s.settled
    ∧ (removeResourceStep s info rid).infos = s.infos
    ∧ (removeResourceStep s info rid).resourceIds = s.resourceIds := by
  unfold removeResourceStep
  split
  · split <;> exact ⟨rfl, rfl, rfl, rfl⟩
  · exact ⟨rfl, rfl, rfl, rfl⟩

/-- Fields `rejectDeferredStep` leaves untouched. -/
theorem rejectDeferredStep_fields (s : LocalState) (rid : Nat) :
    (rejectDeferredStep s rid).infos = s.infos
    ∧ (rejectDeferredStep s rid).resourceIds = s.resourceIds := by
  unfold rejectDeferredStep
  split
  · exact ⟨rfl, rfl⟩
  · exact ⟨rfl, rfl⟩

theorem rejectDeferredStep_deferreds (s : LocalState) (rid key : Nat) :
    lookupA (rejectDeferredStep s rid).deferreds key = none
    ∨ lookupA (rejectDeferredStep s rid).deferreds key = lookupA s.deferreds key := by
  unfold rejectDeferredStep
  split
  · by_cases hk : key = rid
    · subst hk
      exact Or.inl (lookupA_eraseA_self _ _)
    · exact Or.inr (lookupA_eraseA_ne _ _ _ hk)
  · exact Or.inr rfl

theorem rejectDeferredStep_settled (s : LocalState) (rid : Nat)
    (x : Nat × ErrKind) (h : x ∈ s.settled) :
    x ∈ (rejectDeferredStep s rid).settled := by
  unfold rejectDeferredStep
  split
  · split
    · exact List.mem_cons_of_mem _ h
    · exact h
  · exact h

/-- Rejecting a pending deferred settles it with the disposal error and
removes it from the map. -/
theorem rejectDeferredStep_fires (s : LocalState) (rid : Nat)
    (h : lookupA s.deferreds rid = some DefState.pending) :
    lookupA (rejectDeferredStep s rid).deferreds rid = none
    ∧ (rid, ErrKind.disposed) ∈ (rejectDeferredStep s rid).settled := by
  unfold rejectDeferredStep
  rw [h]
  constructor
  · show lookupA (eraseA s.deferreds rid) rid = none
    exact lookupA_eraseA_self _ _
  · show (rid, ErrKind.disposed) ∈
      (if DefState.pending = DefState.pending then (rid, ErrKind.disposed) :: s.settled
        else s.settled)
    rw [if_pos rfl]
    exact List.mem_cons_self _ _

/-- The post-condition of C4 for one id. -/
def sweepPost (s : LocalState) (rid : Nat) : Prop :=
  lookupA s.deferreds rid = none ∧ (rid, ErrKind.disposed) ∈ s.settled

theorem processIndex_post (i : Nat) (s : LocalState) (rid : Nat)
    (h : sweepPost s rid) : sweepPost (processIndex i s) rid := by
  unfold processIndex
  split
  · exact h
  next rid2 hget =>
    split
    · split
      · exact h
      next info hinfo =>
        obtain ⟨hrd, hrs, _, _⟩ :=
          removeResourceStep_fields (rejectDeferredStep s rid2) info rid2
        refine ⟨?_, ?_⟩
        · show lookupA (removeResourceStep (rejectDeferredStep s rid2) info rid2).deferreds rid
              = none
          rw [hrd]
          rcases rejectDeferredStep_deferreds s rid2 rid with hn | he
          · exact hn
          · rw [he]
            exact h.1
        · show (rid, ErrKind.disposed)
              ∈ (removeResourceStep (rejectDeferredStep s rid2) info rid2).settled
          rw [hrs]
          exact rejectDeferredStep_settled s rid2 _ h.2
    · exact h

theorem sweepFrom_post (n : Nat) (s : LocalState) (rid : Nat)
    (h : sweepPost s rid) : sweepPost (sweepFrom n s) rid := by
  induction n generalizing s with
  | zero => exact h
  | succ n ih => exact ih (processIndex n s) (processIndex_post n s rid h)

theorem get?_eraseIdx_lt {α : Type} (l : List α) (i j : Nat) (h : j < i) :
    (l.eraseIdx i).get? j = l.get? j := by
  induction l generalizing i j with
  | nil => rfl
  | cons x rest ih =>
    cases i with
    | zero => cases h
    | succ i =>
      cases j with
      | zero => rfl
      | succ j => exact ih i j (Nat.lt_of_succ_lt_succ h)

/-- The pre-condition of C4 for the id at index `j`. -/
def sweepPre (s : LocalState) (j rid : Nat) : Prop :=
  s.resourceIds.get? j = some rid
  ∧ getResourceDisposed s rid = true
  ∧ lookupA s.deferreds rid = some DefState.pending

/-- A processed index either already yields the post-condition or leaves
the pre-condition of a smaller index intact. -/
theorem processIndex_pre (i j : Nat) (s : LocalState) (rid : Nat)
    (hj : j < i) (h : sweepPre s j rid) :
    sweepPre (processIndex i s) j rid ∨ sweepPost (processIndex i s) rid := by
  obtain ⟨hget, hdisp, hpend⟩ := h
  unfold processIndex
  split
  · exact Or.inl ⟨hget, hdisp, hpend⟩
  next rid2 hget2 =>
    split
    · split
      · exact Or.inl ⟨hget, hdisp, hpend⟩
      next info hinfo =>
        obtain ⟨hrd, hrs, hri, hrids⟩ :=
          removeResourceStep_fields (rejectDeferredStep s rid2) info rid2
        obtain ⟨hji, hjids⟩ := rejectDeferredStep_fields s rid2
        by_cases heq : rid2 = rid
        · subst heq
          refine Or.inr ⟨?_, ?_⟩
          · show lookupA (removeResourceStep (rejectDeferredStep s rid2) info rid2).deferreds rid2
                = none
            rw [hrd]
            exact (rejectDeferredStep_fires s rid2 hpend).1
          · show (rid2, ErrKind.disposed)
                ∈ (removeResourceStep (rejectDeferredStep s rid2) info rid2).settled
            rw [hrs]
            exact (rejectDeferredStep_fires s rid2 hpend).2
        · refine Or.inl ⟨?_, ?_, ?_⟩
          · show ((removeResourceStep (rejectDeferredStep s rid2) info
                rid2).resourceIds.eraseIdx i).get? j = some rid
            rw [hrids, hjids, get?_eraseIdx_lt _ _ _ hj]
            exact hget
          · show getResourceDisposed
                { removeResourceStep (rejectDeferredStep s rid2) info rid2 with
                  infos := eraseA (removeResourceStep (rejectDeferredStep s rid2) info
                    rid2).infos rid2
                  resourceIds := (removeResourceStep (rejectDeferredStep s rid2) info
                    rid2).resourceIds.eraseIdx i } rid = true
            unfold getResourceDisposed at hdisp ⊢
            simp only
            rw [hri, hji, lookupA_eraseA_ne _ _ _ (fun e => heq e.symm)]
            exact hdisp
          · show lookupA (removeResourceStep (rejectDeferredStep s rid2) info
                rid2).deferreds rid = some DefState.pending
            rw [hrd]
            unfold rejectDeferredStep
            split
            · rw [lookupA_eraseA_ne _ _ _ (fun e => heq e.symm)]
              exact hpend
            · exact hpend
    · exact Or.inl ⟨hget, hdisp, hpend⟩

/-- When the pre-condition holds at the processed index itself, the body
fires and yields the post-condition. -/
theorem processIndex_fires (i : Nat) (s : LocalState) (rid : Nat)
    (h : sweepPre s i rid) : sweepPost (processIndex i s) rid := by
  obtain ⟨hget, hdisp, hpend⟩ := h
  have hinfo : ∃ info, lookupA s.infos rid = some info := by
    unfold getResourceDisposed at hdisp
    cases hl : lookupA s.infos rid with
    | none => rw [hl] at hdisp; cases hdisp
    | some info => exact ⟨info, rfl⟩
  obtain ⟨info, hinfo⟩ := hinfo
  unfold processIndex
  split
  next hnone => rw [hget] at hnone; cases hnone
  next rid2 hsome =>
    rw [hget] at hsome
    injection hsome with hsome
    subst hsome
    rw [hdisp, if_pos rfl, hinfo]
    obtain ⟨hrd, hrs, _, _⟩ := removeResourceStep_fields (rejectDeferredStep s rid) info rid
    refine ⟨?_, ?_⟩
    · show lookupA (removeResourceStep (rejectDeferredStep s rid) info rid).deferreds rid = none
      rw [hrd]
      exact (rejectDeferredStep_fires s rid hpend).1
    · show (rid, ErrKind.disposed)
          ∈ (removeResourceStep (rejectDeferredStep s rid) info rid).settled
      rw [hrs]
      exact (rejectDeferredStep_fires s rid hpend).2

theorem sweepFrom_rejects (n : Nat) (s : LocalState) (j rid : Nat)
    (hj : j < n) (h : sweepPre s j rid) : sweepPost (sweepFrom n s) rid := by
  induction n generalizing s j with
  | zero => cases hj
  | succ n ih =>
    by_cases hjn : j = n
    · subst hjn
      exact sweepFrom_post j (processIndex j s) rid (processIndex_fires j s rid h)
    · have hj2 : j < n := by omega
      rcases processIndex_pre n j s rid hj2 h with hpre | hpost
      · exact ih (processIndex n s) j hj2 hpre
      · exact sweepFrom_post n (processIndex n s) rid hpost

/-- The sweep only ever rejects with the disposal error. -/
theorem processIndex_settled_kind (i : Nat) (s : LocalState)
    (h : ∀ p ∈ s.settled, (p : Nat × ErrKind).2 = ErrKind.disposed) :
    ∀ p ∈ (processIndex i s).settled, (p : Nat × ErrKind).2 = ErrKind.disposed := by
  unfold processIndex
  split
  · exact h
  next rid2 hget2 =>
    split
    · split
      · exact h
      next info hinfo =>
        obtain ⟨_, hrs, _, _⟩ :=
          removeResourceStep_fields (rejectDeferredStep s rid2) info rid2
        intro p hp
        rw [show ({ removeResourceStep (rejectDeferredStep s rid2) info rid2 with
            infos := eraseA (removeResourceStep (rejectDeferredStep s rid2) info rid2).infos rid2
            resourceIds := (removeResourceStep (rejectDeferredStep s rid2) info
              rid2).resourceIds.eraseIdx i } : LocalState).settled
          = (rejectDeferredStep s rid2).settled from hrs] at hp
        revert hp
        unfold rejectDeferredStep
        split
        · split
          · intro hp
            rcases List.mem_cons.mp hp with he | hm
            · rw [he]
            · exact h p hm
          · exact h p
        · exact h p
    · exact h

theorem sweepFrom_settled_kind (n : Nat) (s : LocalState)
    (h : ∀ p ∈ s.settled, (p : Nat × ErrKind).2 = ErrKind.disposed) :
    ∀ p ∈ (sweepFrom n s).settled, (p : Nat × ErrKind).2 = ErrKind.disposed := by
  induction n generalizing s with
  | zero => exact h
  | succ n ih => exact ih (processIndex n s) (processIndex_settled_kind n s h)

theorem get?_lt_length {α : Type} (l : List α) (j : Nat) (x : α)
    (h : l.get? j = some x) : j < l.length := by
  induction l generalizing j with
  | nil => cases j <;> cases h
  | cons a rest ih =>
    cases j with
    | zero => exact Nat.succ_pos _
    | succ j => exact Nat.succ_lt_succ (ih j h)

/-- C4: whenever the disposal sweep observes the disposed status bit of a
live resource id whose deferred is still pending, the sweep rejects that
deferred with the `ResourceDisposedError` kind and removes it from the
deferred map; moreover every rejection the sweep performs carries the
disposal kind, distinct from timeout and generic failures. -/
theorem disposal_sweep_rejects (s : LocalState) (j rid : Nat)
    (hget : s.resourceIds.get? j = some rid)
    (hdisp : getResourceDisposed s rid = true)
    (hpend : lookupA s.deferreds rid = some DefState.pending) :
    lookupA (resourceDisposalSystem s).deferreds rid = none
    ∧ (rid, ErrKind.disposed) ∈ (resourceDisposalSystem s).settled
    ∧ (∀ p ∈ (resourceDisposalSystem s).settled,
        (p : Nat × ErrKind).2 = ErrKind.disposed)
    ∧ ErrKind.disposed ≠ ErrKind.timeout ∧ ErrKind.disposed ≠ ErrKind.generic := by
  have hj : j < s.resourceIds.length := get?_lt_length _ j rid hget
  have hmain := sweepFrom_rejects s.resourceIds.length { s with settled := [] } j rid hj
    ⟨hget, hdisp, hpend⟩
  have hkind := sweepFrom_settled_kind s.resourceIds.length { s with settled := [] }
    (by intro p hp; cases hp)
  exact ⟨hmain.1, hmain.2, hkind, by decide, by decide⟩

/-- Example consumer state for the C4 witness: resource 1 is disposed
with a pending deferred. -/
def lsC4 : LocalState :=
  ⟨[1], [(1, ⟨"light", true, true, false, true⟩)], [(1, DefState.pending)],
    [("light", [1])], [], []⟩

/-- Witness for C4 on `lsC4`. -/
theorem disposal_sweep_rejects_witness :
    lookupA (resourceDisposalSystem lsC4).deferreds 1 = none
    ∧ (1, ErrKind.disposed) ∈ (resourceDisposalSystem lsC4).settled :=
  ⟨(disposal_sweep_rejects lsC4 0 1 (by rfl) (by rfl) (by rfl)).1,
    (disposal_sweep_rejects lsC4 0 1 (by rfl) (by rfl) (by rfl)).2.1⟩

/-! ### C9: the TripleBuffer snapshot exchange -/

/-- Modelled from the spec (sections 3 and 4.1; TripleBuffer.ts is not in
the reviewed tree): a snapshot-exchange machine for one TripleBuffer.
The single writer copies its payload cell by cell into the slot
designated for writing and then atomically rotates the readable index;
`getReadBufferIndex` returns `readIdx`, so a reader observes the
`readIdx` slot at any instant.  `history` is a ghost log of completed
writes, most recent first. -/
structure TBM where
  bufs : TB
  readIdx : Fin 3
  writeIdx : Fin 3
  pending : Option (List Nat)
  copied : Nat
  history : List (List Nat)
  deriving DecidableEq

inductive TBEvent
  | beginWrite (v : List Nat)
  | copyStep
  | endWrite
  deriving DecidableEq

/-- The third slot index, currently neither readable nor written. -/
def spareOf (r w : Fin 3) : Fin 3 :=
  ⟨(6 - r.val - w.val) % 3, Nat.mod_lt _ (by omega)⟩

/-- One interleaving step: a write begins only when none is in flight
and the payload fits exactly (a larger payload is a fatal programming
error per spec 4.1); each copy step mutates one cell of the write slot
only; completing a write atomically publishes the write slot as
readable and retargets the writer at the spare slot. -/
def tbStep (cap : Nat) (s : TBM) : TBEvent → Option TBM
  | .beginWrite v =>
    if s.pending = none ∧ v.length = cap then
      some { s with pending := some v, copied := 0 }
    else none
  | .copyStep =>
    match s.pending with
    | none => none
    | some v =>
      if s.copied < cap then
        some { s with
          bufs := s.bufs.setSlot s.writeIdx
            ((s.bufs.slot s.writeIdx).set s.copied (v.getD s.copied 0))
          copied := s.copied + 1 }
      else none
  | .endWrite =>
    match s.pending with
    | none => none
    | some v =>
      if s.copied = cap then
        some { s with
          readIdx := s.writeIdx
          writeIdx := spareOf s.readIdx s.writeIdx
          pending := none
          history := v :: s.history }
      else none

def tbExec (cap : Nat) : TBM → List TBEvent → Option TBM
  | s, [] => some s
  | s, e :: rest =>
    match tbStep cap s e with
    | none => none
    | some s1 => tbExec cap s1 rest

def tbInit (cap : Nat) : TBM :=
  ⟨⟨List.replicate cap 0, List.replicate cap 0, List.replicate cap 0⟩, 0, 1, none, 0, []⟩

/-- The machine invariant: the readable and written slots are distinct,
every slot has full capacity, the readable slot holds exactly the most
recent completed write (or the initial zero content), and an in-flight
copy has written a consistent prefix of its payload. -/
def TBInv (cap : Nat) (s : TBM) : Prop :=
  s.readIdx ≠ s.writeIdx
  ∧ (∀ i : Fin 3, (s.bufs.slot i).length = cap)
  ∧ s.bufs.slot s.readIdx = s.history.headD (List.replicate cap 0)
  ∧ (∀ v ∈ s.history, (v : List Nat).length = cap)
  ∧ (∀ v, s.pending = some v →
      v.length = cap ∧ s.copied ≤ cap
      ∧ (s.bufs.slot s.writeIdx).take s.copied = v.take s.copied)

theorem spareOf_ne (r w : Fin 3) (h : r ≠ w) : spareOf r w ≠ r ∧ spareOf r w ≠ w := by
  fin_cases r <;> fin_cases w <;>
    first
      | exact absurd rfl h
      | exact ⟨by decide, by decide⟩

theorem take_set_succ (l : List Nat) (c : Nat) (x : Nat) (h : c < l.length) :
    (l.set c x).take (c + 1) = l.take c ++ [x] := by
  induction l generalizing c with
  | nil => cases h
  | cons a rest ih =>
    cases c with
    | zero => rfl
    | succ c =>
      simp only [List.set, List.take, List.cons_append]
      rw [ih c (Nat.lt_of_succ_lt_succ h)]

theorem take_succ_getD (l : List Nat) (c : Nat) (h : c < l.length) :
    l.take (c + 1) = l.take c ++ [l.getD c 0] := by
  induction l generalizing c with
  | nil => cases h
  | cons a rest ih =>
    cases c with
    | zero => rfl
    | succ c =>
      simp only [List.take, List.cons_append]
      rw [ih c (Nat.lt_of_succ_lt_succ h)]
      rfl

theorem tbStep_inv (cap : Nat) (s s1 : TBM) (e : TBEvent)
    (hstep : tbStep cap s e = some s1) (hinv : TBInv cap s) : TBInv cap s1 := by
  obtain ⟨hne, hlen, hread, hhist, hpend⟩ := hinv
  cases e with
  | beginWrite v =>
    simp only [tbStep] at hstep
    split at hstep
    next hc =>
      injection hstep with hstep
      rw [← hstep]
      refine ⟨hne, hlen, hread, hhist, ?_⟩
      intro w hw
      have hw2 : some v = some w := hw
      injection hw2 with hw2
      subst hw2
      exact ⟨hc.2, Nat.zero_le _, rfl⟩
    · cases hstep
  | copyStep =>
    simp only [tbStep] at hstep
    split at hstep
    · cases hstep
    next v hp =>
      split at hstep
      next hc =>
        injection hstep with hstep
        rw [← hstep]
        obtain ⟨hvlen, hcle, htake⟩ := hpend v hp
        refine ⟨hne, ?_, ?_, hhist, ?_⟩
        · intro i
          show ((s.bufs.setSlot s.writeIdx
              ((s.bufs.slot s.writeIdx).set s.copied (v.getD s.copied 0))).slot i).length = cap
          by_cases hi : i = s.writeIdx
          · rw [hi, TB.slot_setSlot_self, List.length_set]
            exact hlen s.writeIdx
          · rw [TB.slot_setSlot_ne _ _ _ _ hi]
            exact hlen i
        · show (s.bufs.setSlot s.writeIdx
              ((s.bufs.slot s.writeIdx).set s.copied (v.getD s.copied 0))).slot s.readIdx
            = s.history.headD (List.replicate cap 0)
          rw [TB.slot_setSlot_ne _ _ _ _ hne]
          exact hread
        · intro w hw
          have hw2 : s.pending = some w := hw
          rw [hp] at hw2
          injection hw2 with hw2
          subst hw2
          refine ⟨hvlen, hc, ?_⟩
          show ((s.bufs.setSlot s.writeIdx
              ((s.bufs.slot s.writeIdx).set s.copied (v.getD s.copied 0))).slot
                s.writeIdx).take (s.copied + 1)
            = v.take (s.copied + 1)
          rw [TB.slot_setSlot_self]
          rw [take_set_succ _ _ _ (by rw [hlen s.writeIdx]; exact hc)]
          rw [take_succ_getD v s.copied (by rw [hvlen]; exact hc)]
          rw [htake]
      · cases hstep
  | endWrite =>
    simp only [tbStep] at hstep
    split at hstep
    · cases hstep
    next v hp =>
      split at hstep
      next hc =>
        injection hstep with hstep
        rw [← hstep]
        obtain ⟨hvlen, _, htake⟩ := hpend v hp
        have hfull : s.bufs.slot s.writeIdx = v := by
          have h1 : (s.bufs.slot s.writeIdx).take s.copied = s.bufs.slot s.writeIdx := by
            rw [hc]
            conv_lhs => rw [← hlen s.writeIdx]
            exact List.take_length _
          have h2 : v.take s.copied = v := by
            rw [hc]
            conv_lhs => rw [← hvlen]
            exact List.take_length _
          rw [← h1, ← h2]
          exact htake
        refine ⟨?_, hlen, ?_, ?_, ?_⟩
        · show s.writeIdx ≠ spareOf s.readIdx s.writeIdx
          exact fun e => (spareOf_ne s.readIdx s.writeIdx hne).2 e.symm
        · show s.bufs.slot s.writeIdx = (v :: s.history).headD (List.replicate cap 0)
          rw [hfull]
          rfl
        · intro w hw
          have hw2 : w ∈ v :: s.history := hw
          rcases List.mem_cons.mp hw2 with he | hm
          · rw [he]
            exact hvlen
          · exact hhist w hm
        · intro w hw
          have hw2 : (none : Option (List Nat)) = some w := hw
          cases hw2
      · cases hstep

theorem tbExec_inv (cap : Nat) (tr : List TBEvent) (s0 s : TBM)
    (h : tbExec cap s0 tr = some s) (hinv : TBInv cap s0) : TBInv cap s := by
  induction tr generalizing s0 with
  | nil =>
    simp only [tbExec] at h
    injection h with h
    rw [← h]
    exact hinv
  | cons e rest ih =>
    simp only [tbExec] at h
    cases hstep : tbStep cap s0 e with
    | none => rw [hstep] at h; cases h
    | some s1 =>
      rw [hstep] at h
      exact ih s1 h (tbStep_inv cap s0 s1 e hstep hinv)

/-- C9: in every interleaving of the TripleBuffer machine, the slot a
reader obtains through the readable index holds exactly the full payload
of the most recent completed write (the initial zero content when none
has completed), the reader slot is never the slot the writer is
mutating, and every completed write has full capacity — no torn reads. -/
theorem triple_buffer_no_torn_reads (cap : Nat) (tr : List TBEvent) (s : TBM)
    (h : tbExec cap (tbInit cap) tr = some s) :
    s.bufs.slot s.readIdx = s.history.headD (List.replicate cap 0)
    ∧ s.readIdx ≠ s.writeIdx
    ∧ ∀ v ∈ s.history, (v : List Nat).length = cap := by
  have h0 : TBInv cap (tbInit cap) := by
    refine ⟨(by decide : (0 : Fin 3) ≠ 1), ?_, rfl, ?_, ?_⟩
    · intro i
      fin_cases i <;> simp [tbInit, TB.slot]
    · intro v hv
      cases hv
    · intro v hv
      cases hv
  have hinv := tbExec_inv cap tr (tbInit cap) s h h0
  exact ⟨hinv.2.2.1, hinv.1, hinv.2.2.2.1⟩

/-- Witness for C9: one complete write of payload `[5]`. -/
theorem triple_buffer_no_torn_reads_witness :
    (TBM.mk ⟨[0], [5], [0]⟩ 1 2 none 1 [[5]]).bufs.slot
        (TBM.mk ⟨[0], [5], [0]⟩ 1 2 none 1 [[5]]).readIdx
      = (TBM.mk ⟨[0], [5], [0]⟩ 1 2 none 1 [[5]]).history.headD (List.replicate 1 0)
    ∧ (TBM.mk ⟨[0], [5], [0]⟩ 1 2 none 1 [[5]]).readIdx
      ≠ (TBM.mk ⟨[0], [5], [0]⟩ 1 2 none 1 [[5]]).writeIdx
    ∧ ∀ v ∈ (TBM.mk ⟨[0], [5], [0]⟩ 1 2 none 1 [[5]]).history,
        (v : List Nat).length = 1 :=
  triple_buffer_no_torn_reads 1
    [TBEvent.beginWrite [5], TBEvent.copyStep, TBEvent.endWrite]
    (TBM.mk ⟨[0], [5], [0]⟩ 1 2 none 1 [[5]]) (by rfl)

/-! ### C1: dependency-aware loading on a consuming thread -/

/-- The ids awaited by `waitForLocalResourceDependencies`
(resource.common.ts lines 233–251): for each dependency byte offset,
the word `view[offset / 4]` of the snapshot, zero values skipped. -/
def depIds (offsets : List Nat) (view : List Nat) : List Nat :=
  (offsets.map (fun o => view.getD (o / 4) 0)).filter (fun rid => rid != 0)

/-- A resource as a consuming thread sees it: the schema of its type and
the snapshot words read from its triple buffer. -/
structure ResSpec where
  schema : List (String × SchemaProp)
  view : List Nat

def depsOf (env : Nat → ResSpec) (id : Nat) : List Nat :=
  depIds (dependencyByteOffsets (env id).schema) (env id).view

inductive LoadPhase
  | waiting
  | running
  | loaded
  | failed
  deriving DecidableEq

/-- The observable events of the per-id load pipeline: `start` is the
arrival of the creation record (`loadResource` begins and the resource
enters dependency waiting), `invoke` is the call of the type-specific
loader (`resource.load(ctx)` after `await Promise.all(...)`), `finish`
is the loader returning — upon which `loadResource` resolves the
deferred — and `fail` the failure path rejecting it. -/
inductive LoadEvent
  | start (id : Nat)
  | invoke (id : Nat)
  | finish (id : Nat)
  | fail (id : Nat)
  deriving DecidableEq

structure LoadState where
  phases : List (Nat × LoadPhase)
  deriving DecidableEq

/-- The small-step semantics of the consuming-side load pipeline,
embedding the control flow of `loadResource` and `loadLocalResource`
(lines 110–178 and 253–258): a load may only `invoke` its type-specific
loader once every awaited dependency deferred is resolved — the
`await Promise.all(waitForLocalResourceDependencies(resource))` — and a
dependency deferred resolves exactly when that dependency finishes
loading; the failure transition covers a throwing loader and a rejected
dependency. -/
def loadStep (env : Nat → ResSpec) (s : LoadState) : LoadEvent → Option LoadState
  | .start id =>
    match lookupA s.phases id with
    | none => some ⟨insertA s.phases id LoadPhase.waiting⟩
    | some _ => none
  | .invoke id =>
    if lookupA s.phases id = some LoadPhase.waiting
        ∧ ∀ d ∈ depsOf env id, lookupA s.phases d = some LoadPhase.loaded then
      some ⟨insertA s.phases id LoadPhase.running⟩
    else none
  | .finish id =>
    if lookupA s.phases id = some LoadPhase.running then
      some ⟨insertA s.phases id LoadPhase.loaded⟩
    else none
  | .fail id =>
    if lookupA s.phases id = some LoadPhase.running
        ∨ (lookupA s.phases id = some LoadPhase.waiting
            ∧ ∃ d ∈ depsOf env id, lookupA s.phases d = some LoadPhase.failed) then
      some ⟨insertA s.phases id LoadPhase.failed⟩
    else none

def loadExec (env : Nat → ResSpec) : LoadState → List LoadEvent → Option LoadState
  | s, [] => some s
  | s, e :: rest =>
    match loadStep env s e with
    | none => none
    | some s1 => loadExec env s1 rest

def loadInit : LoadState := ⟨[]⟩

theorem loadExec_append (env : Nat → ResSpec) (l1 l2 : List LoadEvent)
    (s0 s : LoadState) (h : loadExec env s0 (l1 ++ l2) = some s) :
    ∃ s1, loadExec env s0 l1 = some s1 ∧ loadExec env s1 l2 = some s := by
  induction l1 generalizing s0 with
  | nil => exact ⟨s0, rfl, h⟩
  | cons e rest ih =>
    rw [List.cons_append] at h
    simp only [loadExec] at h ⊢
    cases hstep : loadStep env s0 e with
    | none => rw [hstep] at h; cases h
    | some s1 =>
      rw [hstep] at h
      exact ih s1 h

theorem loadStep_invoke_guard (env : Nat → ResSpec) (s0 s1 : LoadState) (id : Nat)
    (h : loadStep env s0 (LoadEvent.invoke id) = some s1) :
    lookupA s0.phases id = some LoadPhase.waiting
    ∧ ∀ d ∈ depsOf env id, lookupA s0.phases d = some LoadPhase.loaded := by
  simp only [loadStep] at h
  split at h
  next hc => exact hc
  · cases h

theorem loadStep_finish_guard (env : Nat → ResSpec) (s0 s1 : LoadState) (id : Nat)
    (h : loadStep env s0 (LoadEvent.finish id) = some s1) :
    lookupA s0.phases id = some LoadPhase.running := by
  simp only [loadStep] at h
  split at h
  next hc => exact hc
  · cases h

theorem loadStep_loaded_origin (env : Nat → ResSpec) (s0 s1 : LoadState)
    (e : LoadEvent) (id : Nat) (hstep : loadStep env s0 e = some s1)
    (h : lookupA s1.phases id = some LoadPhase.loaded) :
    e = LoadEvent.finish id ∨ lookupA s0.phases id = some LoadPhase.loaded := by
  cases e with
  | start id2 =>
    simp only [loadStep] at hstep
    split at hstep
    · injection hstep with hstep
      rw [← hstep] at h
      by_cases hid : id = id2
      · subst hid
        rw [show (⟨insertA s0.phases id LoadPhase.waiting⟩ : LoadState).phases
            = insertA s0.phases id LoadPhase.waiting from rfl,
          lookupA_insertA_self] at h
        cases h
      · rw [show (⟨insertA s0.phases id2 LoadPhase.waiting⟩ : LoadState).phases
            = insertA s0.phases id2 LoadPhase.waiting from rfl,
          lookupA_insertA_ne _ _ _ _ hid] at h
        exact Or.inr h
    · cases hstep
  | invoke id2 =>
    simp only [loadStep] at hstep
    split at hstep
    · injection hstep with hstep
      rw [← hstep] at h
      by_cases hid : id = id2
      · subst hid
        rw [show (⟨insertA s0.phases id LoadPhase.running⟩ : LoadState).phases
            = insertA s0.phases id LoadPhase.running from rfl,
          lookupA_insertA_self] at h
        cases h
      · rw [show (⟨insertA s0.phases id2 LoadPhase.running⟩ : LoadState).phases
            = insertA s0.phases id2 LoadPhase.running from rfl,
          lookupA_insertA_ne _ _ _ _ hid] at h
        exact Or.inr h
    · cases hstep
  | finish id2 =>
    by_cases hid : id = id2
    · exact Or.inl (by rw [hid])
    · simp only [loadStep] at hstep
      split at hstep
      · injection hstep with hstep
        rw [← hstep] at h
        rw [show (⟨insertA s0.phases id2 LoadPhase.loaded⟩ : LoadState).phases
            = insertA s0.phases id2 LoadPhase.loaded from rfl,
          lookupA_insertA_ne _ _ _ _ hid] at h
        exact Or.inr h
      · cases hstep
  | fail id2 =>
    simp only [loadStep] at hstep
    split at hstep
    · injection hstep with hstep
      rw [← hstep] at h
      by_cases hid : id = id2
      · subst hid
        rw [show (⟨insertA s0.phases id LoadPhase.failed⟩ : LoadState).phases
            = insertA s0.phases id LoadPhase.failed from rfl,
          lookupA_insertA_self] at h
        cases h
      · rw [show (⟨insertA s0.phases id2 LoadPhase.failed⟩ : LoadState).phases
            = insertA s0.phases id2 LoadPhase.failed from rfl,
          lookupA_insertA_ne _ _ _ _ hid] at h
        exact Or.inr h
    · cases hstep

theorem loadExec_loaded_origin (env : Nat → ResSpec) (tr : List LoadEvent)
    (s0 s : LoadState) (id : Nat) (h : loadExec env s0 tr = some s)
    (hl : lookupA s.phases id = some LoadPhase.loaded) :
    lookupA s0.phases id = some LoadPhase.loaded ∨ LoadEvent.finish id ∈ tr := by
  induction tr generalizing s0 with
  | nil =>
    simp only [loadExec] at h
    injection h with h
    rw [h]
    exact Or.inl hl
  | cons e rest ih =>
    simp only [loadExec] at h
    cases hstep : loadStep env s0 e with
    | none => rw [hstep] at h; cases h
    | some s1 =>
      rw [hstep] at h
      rcases ih s1 h with h1 | h2
      · rcases loadStep_loaded_origin env s0 s1 e id hstep h1 with he | h0
        · exact Or.inr (by rw [he]; exact List.mem_cons_self _ _)
        · exact Or.inl h0
      · exact Or.inr (List.mem_cons_of_mem _ h2)

theorem loadStep_running_origin (env : Nat → ResSpec) (s0 s1 : LoadState)
    (e : LoadEvent) (id : Nat) (hstep : loadStep env s0 e = some s1)
    (h : lookupA s1.phases id = some LoadPhase.running) :
    e = LoadEvent.invoke id ∨ lookupA s0.phases id = some LoadPhase.running := by
  cases e with
  | start id2 =>
    simp only [loadStep] at hstep
    split at hstep
    · injection hstep with hstep
      rw [← hstep] at h
      by_cases hid : id = id2
      · subst hid
        rw [show (⟨insertA s0.phases id LoadPhase.waiting⟩ : LoadState).phases
            = insertA s0.phases id LoadPhase.waiting from rfl,
          lookupA_insertA_self] at h
        cases h
      · rw [show (⟨insertA s0.phases id2 LoadPhase.waiting⟩ : LoadState).phases
            = insertA s0.phases id2 LoadPhase.waiting from rfl,
          lookupA_insertA_ne _ _ _ _ hid] at h
        exact Or.inr h
    · cases hstep
  | invoke id2 =>
    by_cases hid : id = id2
    · exact Or.inl (by rw [hid])
    · simp only [loadStep] at hstep
      split at hstep
      · injection hstep with hstep
        rw [← hstep] at h
        rw [show (⟨insertA s0.phases id2 LoadPhase.running⟩ : LoadState).phases
            = insertA s0.phases id2 LoadPhase.running from rfl,
          lookupA_insertA_ne _ _ _ _ hid] at h
        exact Or.inr h
      · cases hstep
  | finish id2 =>
    simp only [loadStep] at hstep
    split at hstep
    · injection hstep with hstep
      rw [← hstep] at h
      by_cases hid : id = id2
      · subst hid
        rw [show (⟨insertA s0.phases id LoadPhase.loaded⟩ : LoadState).phases
            = insertA s0.phases id LoadPhase.loaded from rfl,
          lookupA_insertA_self] at h
        cases h
      · rw [show (⟨insertA s0.phases id2 LoadPhase.loaded⟩ : LoadState).phases
            = insertA s0.phases id2 LoadPhase.loaded from rfl,
          lookupA_insertA_ne _ _ _ _ hid] at h
        exact Or.inr h
    · cases hstep
  | fail id2 =>
    simp only [loadStep] at hstep
    split at hstep
    · injection hstep with hstep
      rw [← hstep] at h
      by_cases hid : id = id2
      · subst hid
        rw [show (⟨insertA s0.phases id LoadPhase.failed⟩ : LoadState).phases
            = insertA s0.phases id LoadPhase.failed from rfl,
          lookupA_insertA_self] at h
        cases h
      · rw [show (⟨insertA s0.phases id2 LoadPhase.failed⟩ : LoadState).phases
            = insertA s0.phases id2 LoadPhase.failed from rfl,
          lookupA_insertA_ne _ _ _ _ hid] at h
        exact Or.inr h
    · cases hstep

theorem loadExec_running_origin (env : Nat → ResSpec) (tr : List LoadEvent)
    (s0 s : LoadState) (id : Nat) (h : loadExec env s0 tr = some s)
    (hr : lookupA s.phases id = some LoadPhase.running) :
    lookupA s0.phases id = some LoadPhase.running
    ∨ ∃ p q, tr = p ++ LoadEvent.invoke id :: q
        ∧ ∃ sp s2, loadExec env s0 p = some sp
            ∧ loadStep env sp (LoadEvent.invoke id) = some s2 := by
  induction tr generalizing s0 with
  | nil =>
    simp only [loadExec] at h
    injection h with h
    rw [h]
    exact Or.inl hr
  | cons e rest ih =>
    simp only [loadExec] at h
    cases hstep : loadStep env s0 e with
    | none => rw [hstep] at h; cases h
    | some s1 =>
      rw [hstep] at h
      rcases ih s1 h with h1 | ⟨p, q, hpq, sp, s2, hp, hinv⟩
      · rcases loadStep_running_origin env s0 s1 e id hstep h1 with he | h0
        · subst he
          exact Or.inr ⟨[], rest, rfl, s0, s1, rfl, hstep⟩
        · exact Or.inl h0
      · refine Or.inr ⟨e :: p, q, by rw [hpq]; rfl, sp, s2, ?_, hinv⟩
        simp only [loadExec]
        rw [hstep]
        exact hp

/-- C1: in every valid interleaving of the consuming-side load pipeline,
the invocation of the type-specific loader of a resource `A` happens
only after the loader of every non-zero dependency read from the
snapshot of `A` has finished (its deferred resolved) — and, through the
same guard on that dependency, only after the loaders of the
dependency's own non-zero dependencies finished; zero-valued dependency
fields are skipped: they never appear in the awaited set. -/
theorem load_waits_for_dependencies (env : Nat → ResSpec)
    (tr1 tr2 : List LoadEvent) (A : Nat) (s : LoadState)
    (h : loadExec env loadInit (tr1 ++ LoadEvent.invoke A :: tr2) = some s) :
    (∀ B ∈ depsOf env A, LoadEvent.finish B ∈ tr1
      ∧ ∀ C ∈ depsOf env B, LoadEvent.finish C ∈ tr1)
    ∧ ∀ r ∈ depsOf env A, r ≠ 0 := by
  obtain ⟨s1, hexec1, hexec2⟩ := loadExec_append env tr1 _ loadInit s h
  simp only [loadExec] at hexec2
  constructor
  · intro B hB
    have hstepA : ∃ s2, loadStep env s1 (LoadEvent.invoke A) = some s2 := by
      cases hst : loadStep env s1 (LoadEvent.invoke A) with
      | none => rw [hst] at hexec2; cases hexec2
      | some s2 => exact ⟨s2, rfl⟩
    obtain ⟨s2, hstepA⟩ := hstepA
    have hloadedB := (loadStep_invoke_guard env s1 s2 A hstepA).2 B hB
    have hfinB : LoadEvent.finish B ∈ tr1 := by
      rcases loadExec_loaded_origin env tr1 loadInit s1 B hexec1 hloadedB with h0 | hm
      · cases h0
      · exact hm
    refine ⟨hfinB, ?_⟩
    intro C hC
    obtain ⟨p, q, hpq⟩ := List.append_of_mem hfinB
    rw [hpq] at hexec1
    obtain ⟨sp, hp, hq⟩ := loadExec_append env p _ loadInit s1 hexec1
    simp only [loadExec] at hq
    have hstepB : ∃ sb, loadStep env sp (LoadEvent.finish B) = some sb := by
      cases hst : loadStep env sp (LoadEvent.finish B) with
      | none => rw [hst] at hq; cases hq
      | some sb => exact ⟨sb, rfl⟩
    obtain ⟨sb, hstepB⟩ := hstepB
    have hrun := loadStep_finish_guard env sp sb B hstepB
    rcases loadExec_running_origin env p loadInit sp B hp hrun with h0 | ⟨p1, q1, hp1q1, sp1, s2b, hp1, hinvB⟩
    · cases h0
    · have hloadedC := (loadStep_invoke_guard env sp1 s2b B hinvB).2 C hC
      have hfinC : LoadEvent.finish C ∈ p1 := by
        rcases loadExec_loaded_origin env p1 loadInit sp1 C hp1 hloadedC with h0 | hm
        · cases h0
        · exact hm
      rw [hpq, hp1q1]
      exact List.mem_append_left _ (List.mem_append_left _ hfinC)
  · intro r hr
    have := (List.mem_filter.mp hr).2
    simpa using this

/-- Environment for the C1 witness: resource 1 depends on 2 (via a ref
field whose snapshot word is 2), resource 2 depends on 3, resource 3 has
no dependencies. -/
def envW : Nat → ResSpec := fun id =>
  if id = 1 then ⟨[("b", ⟨"ref", false, 1, 0, 4⟩)], [2]⟩
  else if id = 2 then ⟨[("c", ⟨"ref", false, 1, 0, 4⟩)], [3]⟩
  else ⟨[], []⟩

def trW : List LoadEvent :=
  [LoadEvent.start 3, LoadEvent.invoke 3, LoadEvent.finish 3,
    LoadEvent.start 2, LoadEvent.invoke 2, LoadEvent.finish 2, LoadEvent.start 1]

def sW : LoadState :=
  ⟨[(1, LoadPhase.running), (2, LoadPhase.loaded), (3, LoadPhase.loaded)]⟩

/-- Witness for C1 on the chain 1 → 2 → 3. -/
theorem load_waits_for_dependencies_witness :
    (LoadEvent.finish 2 ∈ trW ∧ LoadEvent.finish 3 ∈ trW) ∧ (2 : Nat) ≠ 0 :=
  ⟨⟨((load_waits_for_dependencies envW trW [] 1 sW (by decide)).1 2 (by decide)).1,
      ((load_waits_for_dependencies envW trW [] 1 sW (by decide)).1 2 (by decide)).2
        3 (by decide)⟩,
    (load_waits_for_dependencies envW trW [] 1 sW (by decide)).2 2 (by decide)⟩

end ThirdRoom
